import Mathlib

/-!
Shallow embedding of the Electrum peer-discovery manager
(src/electrum/discovery.rs): the health-check job model, the scheduler
queue, the healthy-server registry, peer admission, and the
compatibility check.  Rust `Instant` timestamps are modelled as natural
numbers (a monotonic clock), `HashMap`/`HashSet` as association lists /
duplicate-free lists, and the external network (DNS resolution, the
liveness probe) as explicit oracles.
-/

/-! ## Basic types -/

/-- Modelled from the spec: an IP address is an opaque identifier with
decidable equality (std::net::IpAddr is outside the repository). -/
abbrev IpAddr := Nat

abbrev Hostname := String

abbrev Port := Nat

/-- ServerAddr from discovery.rs lines 54-58. -/
inductive ServerAddr
  | Clearnet : IpAddr → ServerAddr
  | Onion : Hostname → ServerAddr
deriving DecidableEq

/-- Service from discovery.rs lines 60-65. -/
inductive Service
  | Tcp : Port → Service
  | Ssl : Port → Service
deriving DecidableEq

/-- Modelled from the spec: ProtocolVersion (crate::electrum, not under
src/) is a major.minor version pair ordered lexicographically, so that a
declared range contains the node's own version exactly when min ≤ v ≤ max. -/
structure ProtocolVersion where
  major : Nat
  minor : Nat
deriving DecidableEq

/-- Lexicographic order on protocol versions (PartialOrd of the pair). -/
def ProtocolVersion.le (a b : ProtocolVersion) : Bool :=
  decide (a.major < b.major) || (decide (a.major = b.major) && decide (a.minor ≤ b.minor))

/-- Display form of a protocol version, as in the v1.4 feature string. -/
def ProtocolVersion.toStr (v : ProtocolVersion) : String :=
  toString v.major ++ "." ++ toString v.minor

/-- Modelled from the spec: the hostname → ports map entry advertised by a
peer (crate::electrum, not under src/): an optional TCP port and an
optional SSL port. -/
structure Ports where
  tcp_port : Option Port
  ssl_port : Option Port
deriving DecidableEq

/-- Modelled from the spec: ServerFeatures (crate::electrum, not under
src/), the value returned by a feature handshake: genesis hash (opaque
identifier), protocol version range, hash-function identifier, optional
pruning depth, and the advertised hostname → ports map (a list models one
HashMap iteration order). -/
structure ServerFeatures where
  genesis_hash : Nat
  protocol_min : ProtocolVersion
  protocol_max : ProtocolVersion
  hash_function : String
  pruning : Option Nat
  hosts : List (Hostname × Ports)
deriving DecidableEq

/-- HealthCheck from discovery.rs lines 67-78; Instants become Nat. -/
structure HealthCheck where
  addr : ServerAddr
  hostname : Hostname
  service : Service
  is_default : Bool
  added_by : Option IpAddr
  last_check : Option Nat
  last_healthy : Option Nat
  consecutive_failures : Nat
deriving DecidableEq

/-- Server from discovery.rs lines 45-52; the HashSet of services becomes a
duplicate-free list. -/
structure Server where
  services : List Service
  hostname : Hostname
  features : ServerFeatures
deriving DecidableEq

/-- ServerEntry from discovery.rs lines 80-82. -/
structure ServerEntry where
  addr : ServerAddr
  hostname : Hostname
  features : List String
deriving DecidableEq

/-! ## Constants (discovery.rs lines 20-25) -/

def HEALTH_CHECK_FREQ : Nat := 3600

def MAX_CONSECUTIVE_FAILURES : Nat := 24

def MAX_QUEUE_SIZE : Nat := 500

def MAX_SERVERS_PER_REQUEST : Nat := 3

def MAX_SERVICES_PER_REQUEST : Nat := 6

/-! ## HealthCheck operations (discovery.rs lines 412-462) -/

/-- HealthCheck::new (discovery.rs lines 413-429). -/
def HealthCheck.new (addr : ServerAddr) (hostname : Hostname) (service : Service)
    (added_by : Option IpAddr) : HealthCheck :=
  { addr := addr
    hostname := hostname
    service := service
    is_default := added_by.isNone
    added_by := added_by
    last_check := none
    last_healthy := none
    consecutive_failures := 0 }

/-- HealthCheck::is_healthy (discovery.rs lines 431-436). -/
def HealthCheck.is_healthy (hc : HealthCheck) : Bool :=
  match hc.last_check, hc.last_healthy with
  | some c, some h => c == h
  | _, _ => false

/-- HealthCheck::should_retry (discovery.rs lines 440-443). -/
def HealthCheck.should_retry (hc : HealthCheck) : Bool :=
  (hc.last_healthy.isSome || hc.is_default)
    && decide (hc.consecutive_failures < MAX_CONSECUTIVE_FAILURES)

/-- Comparison used by the scheduler: Ord on Option Instant with None
least; BinaryHeap plus the reversed Ord (discovery.rs lines 452-456) pops
a job minimal in this order. -/
def lcLE : Option Nat → Option Nat → Bool
  | none, _ => true
  | some _, none => false
  | some a, some b => decide (a ≤ b)

/-! ## Address resolution (discovery.rs lines 376-392) -/

/-- String::to_lowercase, written by structural recursion over the
character list so that the kernel can evaluate it. -/
def strToLower (s : String) : String := String.mk (s.data.map Char.toLower)

/-- str::ends_with, written by structural recursion over the character
list so that the kernel can evaluate it. -/
def strEndsWith (s t : String) : Bool := t.data.isSuffixOf s.data

/-- Modelled from the spec: the external name-resolution environment.
parseIp stands for IpAddr::from_str on a literal, dns for
to_socket_addrs taking the first result; both live outside the repository. -/
structure ResolveEnv where
  parseIp : Hostname → Option IpAddr
  dns : Hostname → Option IpAddr

/-- ServerAddr::resolve (discovery.rs lines 377-391): .onion suffix gives
an onion identity without resolution, otherwise an IP literal parses
directly, otherwise name resolution supplies the address. -/
def ServerAddr.resolve (env : ResolveEnv) (host : Hostname) : Option ServerAddr :=
  if strEndsWith host ".onion" then some (ServerAddr.Onion host)
  else
    match env.parseIp host with
    | some ip => some (ServerAddr.Clearnet ip)
    | none =>
      match env.dns host with
      | some ip => some (ServerAddr.Clearnet ip)
      | none => none

/-! ## Compatibility check (discovery.rs lines 325-342) -/

/-- Error kinds of the admission/compatibility paths.  The source uses
string messages: the three verify_compatibility ensures are
incompatiblePeer, the two queue-size ensures ("queue size exceeded") are
queueFull, "no new valid entries" is noNewEntries, and a resolution
failure in add_default_server is resolutionFailed. -/
inductive DiscoveryError
  | incompatiblePeer
  | queueFull
  | noNewEntries
  | resolutionFailed
deriving DecidableEq

/-- Configuration fields of DiscoveryManager (discovery.rs lines 35-40);
the tor proxy socket address is opaque. -/
structure DiscoveryConfig where
  our_genesis_hash : Nat
  our_version : ProtocolVersion
  tor_proxy : Option Nat

/-- DiscoveryManager::verify_compatibility (discovery.rs lines 325-342). -/
def verify_compatibility (cfg : DiscoveryConfig) (f : ServerFeatures) :
    Except DiscoveryError Unit :=
  if f.genesis_hash = cfg.our_genesis_hash then
    if ProtocolVersion.le f.protocol_min cfg.our_version
        && ProtocolVersion.le cfg.our_version f.protocol_max then
      if f.hash_function = "sha256" then Except.ok ()
      else Except.error DiscoveryError.incompatiblePeer
    else Except.error DiscoveryError.incompatiblePeer
  else Except.error DiscoveryError.incompatiblePeer

/-- Boolean form of the compatibility check. -/
def isCompatible (cfg : DiscoveryConfig) (f : ServerFeatures) : Bool :=
  match verify_compatibility cfg f with
  | Except.ok _ => true
  | Except.error _ => false

/-! ## Admission (discovery.rs lines 100-190) -/

/-- The services advertised by one host entry: the optional TCP service
chained with the optional SSL service (discovery.rs lines 149-151; the
two-element HashSet is realized in tcp-then-ssl order). -/
def hostServices (ports : Ports) : List Service :=
  ports.tcp_port.toList.map Service.Tcp ++ ports.ssl_port.toList.map Service.Ssl

/-- The (addr, service) pairs already pending in the queue, as a membership
test (discovery.rs lines 107-114 build this as a HashMap of HashSets). -/
def existingServices (queue : List HealthCheck) (addr : ServerAddr) (service : Service) : Bool :=
  queue.any (fun hc => decide (hc.addr = addr) && decide (hc.service = service))

/-- The per-host admission filter (discovery.rs lines 121-147): lowercase,
length-cap at 100, resolve, and for clearnet require the resolved IP to
equal the reporting IP; onion addresses are exempt. -/
def hostSurvives (env : ResolveEnv) (added_by : IpAddr) (p : Hostname × Ports) :
    Option (ServerAddr × Hostname × Ports) :=
  let hostname := strToLower p.1
  if hostname.length > 100 then none
  else
    match ServerAddr.resolve env hostname with
    | none => none
    | some addr =>
      match addr with
      | ServerAddr.Clearnet ip =>
        if ip = added_by then some (addr, hostname, p.2) else none
      | ServerAddr.Onion _ => some (addr, hostname, p.2)

/-- The jobs contributed by one surviving host (discovery.rs lines
148-164): its advertised services minus the pairs already pending. -/
def hostJobs (added_by : IpAddr) (existing : ServerAddr → Service → Bool)
    (t : ServerAddr × Hostname × Ports) : List HealthCheck :=
  ((hostServices t.2.2).filter (fun s => !(existing t.1 s))).map
    (fun s => HealthCheck.new t.1 t.2.1 s (some added_by))

/-- The candidate jobs of one server.add_peer request (discovery.rs lines
117-166): at most MAX_SERVERS_PER_REQUEST hosts are considered and at most
MAX_SERVICES_PER_REQUEST jobs are produced. -/
def candidateJobs (env : ResolveEnv) (added_by : IpAddr) (hosts : List (Hostname × Ports))
    (existing : ServerAddr → Service → Bool) : List HealthCheck :=
  (((hosts.take MAX_SERVERS_PER_REQUEST).filterMap (hostSurvives env added_by)).flatMap
      (hostJobs added_by existing)).take MAX_SERVICES_PER_REQUEST

/-- DiscoveryManager::add_server_request (discovery.rs lines 101-177).
Returns the queue after the call together with the error, if any; every
early return leaves the queue unchanged. -/
def add_server_request (cfg : DiscoveryConfig) (env : ResolveEnv) (added_by : IpAddr)
    (features : ServerFeatures) (queue : List HealthCheck) :
    List HealthCheck × Option DiscoveryError :=
  match verify_compatibility cfg features with
  | Except.error e => (queue, some e)
  | Except.ok _ =>
    if queue.length < MAX_QUEUE_SIZE then
      let jobs := candidateJobs env added_by features.hosts (existingServices queue)
      if jobs.isEmpty then (queue, some DiscoveryError.noNewEntries)
      else if queue.length + jobs.length ≤ MAX_QUEUE_SIZE then (queue ++ jobs, none)
      else (queue, some DiscoveryError.queueFull)
    else (queue, some DiscoveryError.queueFull)

/-- DiscoveryManager::add_default_server (discovery.rs lines 181-190):
resolves the hostname and unconditionally enqueues one job per service,
with no added_by and no queue-size cap. -/
def add_default_server (env : ResolveEnv) (hostname : Hostname) (services : List Service)
    (queue : List HealthCheck) : Except DiscoveryError (List HealthCheck) :=
  match ServerAddr.resolve env hostname with
  | none => Except.error DiscoveryError.resolutionFailed
  | some addr =>
    Except.ok (queue ++ services.map (fun s => HealthCheck.new addr hostname s none))

/-! ## Healthy registry (discovery.rs lines 269-293) -/

/-- Lookup in the registry association list (HashMap::get). -/
def lookupServer : List (ServerAddr × Server) → ServerAddr → Option Server
  | [], _ => none
  | (a, srv) :: rest, b => if a = b then some srv else lookupServer rest b

/-- DiscoveryManager::save_healthy_service (discovery.rs lines 270-278):
upsert the server and insert the service into its set; none models the
assert! firing because the service was already present. -/
def save_healthy_service (hc : HealthCheck) (features : ServerFeatures) :
    List (ServerAddr × Server) → Option (List (ServerAddr × Server))
  | [] => some [(hc.addr, { services := [hc.service], hostname := hc.hostname, features := features })]
  | (a, srv) :: rest =>
    if a = hc.addr then
      if hc.service ∈ srv.services then none
      else some ((a, { srv with services := hc.service :: srv.services }) :: rest)
    else (save_healthy_service hc features rest).map (fun r => (a, srv) :: r)

/-- DiscoveryManager::remove_unhealthy_service (discovery.rs lines
281-293): remove the service, dropping the entry when its set empties;
none models the assert!/unreachable! firing (missing entry or service). -/
def remove_unhealthy_service (hc : HealthCheck) :
    List (ServerAddr × Server) → Option (List (ServerAddr × Server))
  | [] => none
  | (a, srv) :: rest =>
    if a = hc.addr then
      if hc.service ∈ srv.services then
        let services := srv.services.erase hc.service
        some (if services.isEmpty then rest else (a, { srv with services := services }) :: rest)
      else none
    else (remove_unhealthy_service hc rest).map (fun r => (a, srv) :: r)

/-! ## Directory query (discovery.rs lines 193-203 and 365-373) -/

/-- Service Display (discovery.rs lines 464-471). -/
def Service.toStr : Service → String
  | Service.Tcp port => "t" ++ toString port
  | Service.Ssl port => "s" ++ toString port

/-- Server::feature_strs (discovery.rs lines 365-373). -/
def Server.feature_strs (srv : Server) : List String :=
  ("v" ++ ProtocolVersion.toStr srv.features.protocol_max) ::
    ((match srv.features.pruning with
      | some n => ["p" ++ toString n]
      | none => []) ++ srv.services.map Service.toStr)

/-- DiscoveryManager::get_servers (discovery.rs lines 193-203). -/
def get_servers (healthy : List (ServerAddr × Server)) : List ServerEntry :=
  healthy.map (fun p =>
    { addr := p.1, hostname := p.2.hostname, features := Server.feature_strs p.2 })

/-! ## Health-check cycle (discovery.rs lines 206-267 and 295-323) -/

/-- Pop a job minimal in the scheduler order (BinaryHeap::pop under the
reversed last_check Ord, discovery.rs lines 452-456): the first job whose
last_check is least, with absent sorting before every timestamp. -/
def popMin : List HealthCheck → Option (HealthCheck × List HealthCheck)
  | [] => none
  | hc :: rest =>
    match popMin rest with
    | none => some (hc, [])
    | some (m, rest2) =>
      if lcLE hc.last_check m.last_check then some (hc, rest) else some (m, hc :: rest2)

/-- The rate-limit guard (discovery.rs lines 208-213): a popped job is due
when never checked, or checked at least HEALTH_CHECK_FREQ ago. -/
def dueFor (hc : HealthCheck) (now : Nat) : Bool :=
  match hc.last_check with
  | none => true
  | some t => decide (HEALTH_CHECK_FREQ ≤ now - t)

/-- The bookkeeping of a successful probe (discovery.rs lines 236-238). -/
def succUpdate (hc : HealthCheck) (now : Nat) : HealthCheck :=
  { hc with last_check := some now, last_healthy := some now, consecutive_failures := 0 }

/-- The bookkeeping of a failed probe (discovery.rs lines 255-256). -/
def failUpdate (hc : HealthCheck) (now : Nat) : HealthCheck :=
  { hc with last_check := some now, consecutive_failures := hc.consecutive_failures + 1 }

/-- DiscoveryManager::check_server (discovery.rs lines 295-323): transport
selection (onion TCP needs the proxy, SSL over onion is unsupported), then
the probe itself (an oracle for the external connection and handshake),
then verify_compatibility on the returned features. -/
def check_server (cfg : DiscoveryConfig) (addr : ServerAddr) (service : Service)
    (probe : Except Unit ServerFeatures) : Except Unit ServerFeatures :=
  match addr, service with
  | ServerAddr.Onion _, Service.Ssl _ => Except.error ()
  | ServerAddr.Onion _, Service.Tcp _ =>
    match cfg.tor_proxy with
    | none => Except.error ()
    | some _ =>
      match probe with
      | Except.error e => Except.error e
      | Except.ok f => if isCompatible cfg f then Except.ok f else Except.error ()
  | ServerAddr.Clearnet _, _ =>
    match probe with
    | Except.error e => Except.error e
    | Except.ok f => if isCompatible cfg f then Except.ok f else Except.error ()

/-- The shared state of the DiscoveryManager: scheduler queue, healthy
registry, plus the monotonic clock the Instant timestamps come from. -/
structure DiscoveryState where
  queue : List HealthCheck
  healthy : List (ServerAddr × Server)
  clock : Nat
deriving DecidableEq

/-- DiscoveryManager::run_health_check (discovery.rs lines 206-267) with
the probe outcome supplied as an oracle.  A none result models a panic of
the registry assertions; an untouched state models the early return when
the queue is empty or the head job is not yet due. -/
def run_health_check (cfg : DiscoveryConfig) (probe : Except Unit ServerFeatures)
    (now : Nat) (st : DiscoveryState) : Option DiscoveryState :=
  match popMin st.queue with
  | none => some st
  | some (hc, rest) =>
    if dueFor hc now then
      match check_server cfg hc.addr hc.service probe with
      | Except.ok features =>
        (if hc.is_healthy then some st.healthy
         else save_healthy_service hc features st.healthy).map
          (fun reg => { queue := rest ++ [succUpdate hc now], healthy := reg, clock := now })
      | Except.error _ =>
        (if hc.is_healthy then remove_unhealthy_service hc st.healthy
         else some st.healthy).map
          (fun reg =>
            { queue :=
                if (failUpdate hc now).should_retry then rest ++ [failUpdate hc now] else rest
              healthy := reg
              clock := now })
    else some st

/-! ## The transition system

One step is an admission (default seeding or a successful
server.add_peer request; failed requests leave the state unchanged) or
one health-check cycle.  The cycle pops an arbitrary scheduler-minimal
job (BinaryHeap breaks last_check ties in an unspecified way), requires
it to be due, and branches on the probe outcome, which is external
nondeterminism.  Steps on which a registry assertion would fire (the
Option-none cases) do not exist: the program panics there instead of
reaching a next state. -/

inductive Step (cfg : DiscoveryConfig) (env : ResolveEnv) :
    DiscoveryState → DiscoveryState → Prop
  | add_default (st : DiscoveryState) (hostname : Hostname) (services : List Service)
      (q2 : List HealthCheck) :
      add_default_server env hostname services st.queue = Except.ok q2 →
      Step cfg env st { queue := q2, healthy := st.healthy, clock := st.clock }
  | add_request (st : DiscoveryState) (ip : IpAddr) (features : ServerFeatures)
      (q2 : List HealthCheck) :
      add_server_request cfg env ip features st.queue = (q2, none) →
      Step cfg env st { queue := q2, healthy := st.healthy, clock := st.clock }
  | probe_ok (st : DiscoveryState) (hc : HealthCheck) (l1 l2 : List HealthCheck)
      (features : ServerFeatures) (reg : List (ServerAddr × Server)) (now : Nat) :
      st.queue = l1 ++ hc :: l2 →
      (∀ j ∈ st.queue, lcLE hc.last_check j.last_check = true) →
      dueFor hc now = true →
      st.clock ≤ now →
      isCompatible cfg features = true →
      (if hc.is_healthy then some st.healthy
       else save_healthy_service hc features st.healthy) = some reg →
      Step cfg env st
        { queue := (l1 ++ l2) ++ [succUpdate hc now], healthy := reg, clock := now }
  | probe_fail (st : DiscoveryState) (hc : HealthCheck) (l1 l2 : List HealthCheck)
      (reg : List (ServerAddr × Server)) (now : Nat) :
      st.queue = l1 ++ hc :: l2 →
      (∀ j ∈ st.queue, lcLE hc.last_check j.last_check = true) →
      dueFor hc now = true →
      st.clock ≤ now →
      (if hc.is_healthy then remove_unhealthy_service hc st.healthy
       else some st.healthy) = some reg →
      Step cfg env st
        { queue :=
            if (failUpdate hc now).should_retry then (l1 ++ l2) ++ [failUpdate hc now]
            else l1 ++ l2
          healthy := reg
          clock := now }

/-- The states reachable from the empty manager by any sequence of
admissions and health-check cycles. -/
inductive Reachable (cfg : DiscoveryConfig) (env : ResolveEnv) : DiscoveryState → Prop
  | init : Reachable cfg env { queue := [], healthy := [], clock := 0 }
  | step {s t : DiscoveryState} :
      Reachable cfg env s → Step cfg env s t → Reachable cfg env t

/-! ## Concrete fixtures used by witnesses and counterexamples -/

/-- A resolution environment in which nothing but onion suffixes resolves. -/
def envNone : ResolveEnv := { parseIp := fun _ => none, dns := fun _ => none }

/-- A node configuration: genesis hash 0, protocol version 1.4, a proxy. -/
def cfgEx : DiscoveryConfig :=
  { our_genesis_hash := 0, our_version := { major := 1, minor := 4 }, tor_proxy := some 0 }

/-- Features compatible with cfgEx, with no advertised hosts. -/
def featsEx : ServerFeatures :=
  { genesis_hash := 0, protocol_min := { major := 1, minor := 0 },
    protocol_max := { major := 1, minor := 4 }, hash_function := "sha256",
    pruning := none, hosts := [] }

/-- A never-checked job (scenario of C3). -/
def jobNeverA : HealthCheck :=
  HealthCheck.new (ServerAddr.Onion "a.onion") "a.onion" (Service.Tcp 1) none

/-- A second never-checked job (scenario of C3). -/
def jobNeverB : HealthCheck :=
  HealthCheck.new (ServerAddr.Onion "b.onion") "b.onion" (Service.Tcp 2) none

/-- A job last checked at time 0, two hours before time 7200 (C3). -/
def jobTwoHoursOld : HealthCheck := { jobNeverA with hostname := "c", last_check := some 0 }

/-- An untrusted, never-healthy job (witness of C1). -/
def jobUntrusted : HealthCheck :=
  HealthCheck.new (ServerAddr.Clearnet 5) "w" (Service.Tcp 1) (some 9)

/-- A currently healthy job, last checked successfully at time 100 (C6). -/
def jobHealthy : HealthCheck :=
  { jobUntrusted with last_check := some 100, last_healthy := some 100 }

/-- Features declaring the protocol range 1.0 to 1.2 (C7). -/
def featsOldRange : ServerFeatures := { featsEx with protocol_max := { major := 1, minor := 2 } }

/-- A registry key (C10). -/
def addrEx : ServerAddr := ServerAddr.Clearnet 4

/-- A registry entry with protocol_max 1.4, pruning 100 and services
TCP 60001 and SSL 60002 (C10). -/
def srvEx : Server :=
  { services := [Service.Tcp 60001, Service.Ssl 60002], hostname := "h.example",
    features := { featsEx with pruning := some 100 } }

/-- Resolution environment in which the literal 9.9.9.9 parses as IP 99 (C4). -/
def envSpoof : ResolveEnv :=
  { parseIp := fun h => if h = "9.9.9.9" then some 99 else none, dns := fun _ => none }

/-- A request advertising a spoofed clearnet host (9.9.9.9, not the
reporting IP 7) next to a valid onion host (C4). -/
def featsSpoof : ServerFeatures :=
  { featsEx with
    hosts := [("9.9.9.9", { tcp_port := some 1000, ssl_port := none }),
              ("ok.onion", { tcp_port := some 2000, ssl_port := none })] }

/-- The job admitted from the valid entry of featsSpoof (C4). -/
def jobOk : HealthCheck :=
  HealthCheck.new (ServerAddr.Onion "ok.onion") "ok.onion" (Service.Tcp 2000) (some 7)

/-- A request whose two distinct hostnames lowercase to the same onion
address and advertise the same port (C9). -/
def featsDup : ServerFeatures :=
  { featsEx with
    hosts := [("DUP.onion", { tcp_port := some 50001, ssl_port := none }),
              ("dup.onion", { tcp_port := some 50001, ssl_port := none })] }

/-- A filler job used to build large queues (C8). -/
def jobFiller : HealthCheck :=
  HealthCheck.new (ServerAddr.Clearnet 99) "d" (Service.Tcp 1) (some 99)

/-- A queue holding 499 jobs (C8). -/
def queue499 : List HealthCheck := List.replicate 499 jobFiller

/-- A queue holding 500 jobs (C8). -/
def queue500 : List HealthCheck := List.replicate 500 jobFiller

/-- A request advertising one onion host with two services (C8). -/
def featsBig : ServerFeatures :=
  { featsEx with hosts := [("big.onion", { tcp_port := some 1, ssl_port := some 2 })] }

/-- The default job seeded twice in the C5 failing run. -/
def jobDup : HealthCheck :=
  HealthCheck.new (ServerAddr.Onion "x.onion") "x.onion" (Service.Tcp 50001) none

/-- The registry after the first duplicate job probes successfully (C5). -/
def regDup : List (ServerAddr × Server) :=
  [(ServerAddr.Onion "x.onion",
    { services := [Service.Tcp 50001], hostname := "x.onion", features := featsEx })]

/-- The reachable state of the C5 failing run: one duplicate job already
healthy and registered, the other still never checked and at the head of
the queue. -/
def stDup : DiscoveryState :=
  { queue := [jobDup, succUpdate jobDup 3600], healthy := regDup, clock := 3600 }

/-- Resolution environment in which the literal 7.7.7.7 parses as IP 7
(witness of C4). -/
def envSelf : ResolveEnv :=
  { parseIp := fun h => if h = "7.7.7.7" then some 7 else none, dns := fun _ => none }

/-- A request correctly advertising the reporter's own IP (witness of C4). -/
def featsSelf : ServerFeatures :=
  { featsEx with hosts := [("7.7.7.7", { tcp_port := some 1000, ssl_port := none })] }

/-- The job admitted from featsSelf (witness of C4). -/
def jobSelf : HealthCheck :=
  HealthCheck.new (ServerAddr.Clearnet 7) "7.7.7.7" (Service.Tcp 1000) (some 7)

/-- One of the two identical jobs admitted from featsDup (witness of C9). -/
def jobDupAdmitted : HealthCheck :=
  HealthCheck.new (ServerAddr.Onion "dup.onion") "dup.onion" (Service.Tcp 50001) (some 7)

/-! ## The inductive invariant behind C2 -/

/-- Two queue entries do not name the same (addr, service) pair while both
healthy. -/
def hkeyDistinct (a b : HealthCheck) : Prop :=
  ¬(a.is_healthy = true ∧ b.is_healthy = true ∧ a.addr = b.addr ∧ a.service = b.service)

/-- The inductive invariant tying the healthy registry to the scheduler
queue: every registry entry is nonempty and duplicate-free, its services
are exactly backed by healthy queued jobs, at most one healthy job exists
per (addr, service), and last_healthy never exceeds last_check. -/
structure StateInv (st : DiscoveryState) : Prop where
  keysNodup : (st.healthy.map Prod.fst).Nodup
  entryNonempty : ∀ a srv, lookupServer st.healthy a = some srv → srv.services ≠ []
  svcNodup : ∀ a srv, lookupServer st.healthy a = some srv → srv.services.Nodup
  regToQueue : ∀ a srv, lookupServer st.healthy a = some srv → ∀ s ∈ srv.services,
    ∃ hc, hc ∈ st.queue ∧ hc.addr = a ∧ hc.service = s ∧ hc.is_healthy = true
  queueToReg : ∀ hc, hc ∈ st.queue → hc.is_healthy = true →
    ∃ srv, lookupServer st.healthy hc.addr = some srv ∧ hc.service ∈ srv.services
  uniqHealthy : st.queue.Pairwise hkeyDistinct
  lhShape : ∀ hc, hc ∈ st.queue → ∀ h, hc.last_healthy = some h →
    ∃ t, hc.last_check = some t ∧ h ≤ t

/-! ## Helper lemmas on the scheduler order -/

theorem lcLE_refl (x : Option Nat) : lcLE x x = true := by
  cases x <;> simp [lcLE]

theorem lcLE_trans {x y z : Option Nat} (h1 : lcLE x y = true) (h2 : lcLE y z = true) :
    lcLE x z = true := by
  cases x <;> cases y <;> cases z <;> simp_all [lcLE]
  omega

theorem lcLE_total {x y : Option Nat} (h : lcLE x y = false) : lcLE y x = true := by
  cases x <;> cases y <;> simp_all [lcLE]
  omega

theorem popMin_none {q : List HealthCheck} : popMin q = none ↔ q = [] := by
  cases q with
  | nil => simp [popMin]
  | cons hc rest =>
    simp only [popMin]
    cases hp : popMin rest with
    | none => simp
    | some p =>
      obtain ⟨m, r2⟩ := p
      by_cases hle : lcLE hc.last_check m.last_check = true
      · simp [hle]
      · simp [hle]

theorem popMin_min {q : List HealthCheck} {hc : HealthCheck} {rest : List HealthCheck}
    (h : popMin q = some (hc, rest)) : ∀ j ∈ q, lcLE hc.last_check j.last_check = true := by
  induction q generalizing hc rest with
  | nil => simp [popMin] at h
  | cons a tl ih =>
    intro j hj
    simp only [popMin] at h
    cases hp : popMin tl with
    | none =>
      rw [hp] at h
      dsimp only at h
      simp only [Option.some.injEq, Prod.mk.injEq] at h
      obtain ⟨rfl, rfl⟩ := h
      have htl : tl = [] := popMin_none.mp hp
      subst htl
      rcases List.mem_cons.mp hj with rfl | hjtl
      · exact lcLE_refl _
      · simp at hjtl
    | some p =>
      obtain ⟨m, r2⟩ := p
      rw [hp] at h
      dsimp only at h
      by_cases hle : lcLE a.last_check m.last_check = true
      · rw [if_pos hle] at h
        simp only [Option.some.injEq, Prod.mk.injEq] at h
        obtain ⟨rfl, rfl⟩ := h
        rcases List.mem_cons.mp hj with rfl | hjtl
        · exact lcLE_refl _
        · exact lcLE_trans hle (ih hp j hjtl)
      · rw [if_neg hle] at h
        simp only [Option.some.injEq, Prod.mk.injEq] at h
        obtain ⟨rfl, rfl⟩ := h
        rcases List.mem_cons.mp hj with rfl | hjtl
        · have hfalse : lcLE j.last_check m.last_check = false := by
            simpa using hle
          exact lcLE_total hfalse
        · exact ih hp j hjtl

/-! ## Helper lemmas on the health-check cycle -/

theorem run_skip {cfg : DiscoveryConfig} {probe : Except Unit ServerFeatures} {now : Nat}
    {st : DiscoveryState} {hc : HealthCheck} {rest : List HealthCheck} {t : Nat}
    (hpop : popMin st.queue = some (hc, rest)) (hlc : hc.last_check = some t)
    (hlt : now - t < HEALTH_CHECK_FREQ) :
    run_health_check cfg probe now st = some st := by
  have hdue : dueFor hc now = false := by
    simp [dueFor, hlc]
    omega
  simp [run_health_check, hpop, hdue]

theorem run_fail_branch {cfg : DiscoveryConfig} {probe : Except Unit ServerFeatures} {now : Nat}
    {st : DiscoveryState} {hc : HealthCheck} {rest : List HealthCheck}
    (hpop : popMin st.queue = some (hc, rest)) (hdue : dueFor hc now = true)
    (hcheck : check_server cfg hc.addr hc.service probe = Except.error ())
    (hhealth : hc.is_healthy = false) :
    run_health_check cfg probe now st =
      some { queue := if (failUpdate hc now).should_retry then rest ++ [failUpdate hc now]
                      else rest
             healthy := st.healthy, clock := now } := by
  simp [run_health_check, hpop, hdue, hcheck, hhealth]

theorem run_ok_branch {cfg : DiscoveryConfig} {probe : Except Unit ServerFeatures} {now : Nat}
    {st : DiscoveryState} {hc : HealthCheck} {rest : List HealthCheck} {f : ServerFeatures}
    (hpop : popMin st.queue = some (hc, rest)) (hdue : dueFor hc now = true)
    (hcheck : check_server cfg hc.addr hc.service probe = Except.ok f)
    (hhealth : hc.is_healthy = true) :
    run_health_check cfg probe now st =
      some { queue := rest ++ [succUpdate hc now], healthy := st.healthy, clock := now } := by
  simp [run_health_check, hpop, hdue, hcheck, hhealth]

/-! ## Claim theorems (first group) -/

/-- C1: after a failed probe, the job is re-enqueued iff (its last_healthy
is present or it is a default job) and the incremented
consecutive_failures counter is strictly below 24; hence a default job
whose 23rd consecutive failure just happened is still retried, any job
reaching 24 consecutive failures is dropped, and a non-default job that
was never healthy is dropped on its first failure. -/
theorem c1_retry_policy :
    (∀ (hc : HealthCheck) (now : Nat),
        (failUpdate hc now).should_retry = true ↔
          ((hc.last_healthy.isSome = true ∨ hc.is_default = true) ∧
            hc.consecutive_failures + 1 < MAX_CONSECUTIVE_FAILURES)) ∧
    (∀ (cfg : DiscoveryConfig) (probe : Except Unit ServerFeatures) (now : Nat)
        (st : DiscoveryState) (hc : HealthCheck) (rest : List HealthCheck),
        popMin st.queue = some (hc, rest) → dueFor hc now = true →
        check_server cfg hc.addr hc.service probe = Except.error () →
        hc.is_healthy = false →
        run_health_check cfg probe now st =
          some { queue := if (failUpdate hc now).should_retry then rest ++ [failUpdate hc now]
                          else rest
                 healthy := st.healthy, clock := now }) ∧
    (∀ (hc : HealthCheck) (now : Nat), hc.is_default = true →
        hc.consecutive_failures = 22 → (failUpdate hc now).should_retry = true) ∧
    (∀ (hc : HealthCheck) (now : Nat), hc.consecutive_failures = 23 →
        (failUpdate hc now).should_retry = false) ∧
    (∀ (hc : HealthCheck) (now : Nat), hc.is_default = false → hc.last_healthy = none →
        (failUpdate hc now).should_retry = false) := by
  refine ⟨?_, ?_, ?_, ?_, ?_⟩
  · intro hc now
    simp [failUpdate, HealthCheck.should_retry, MAX_CONSECUTIVE_FAILURES]
  · intro cfg probe now st hc rest hpop hdue hcheck hhealth
    exact run_fail_branch hpop hdue hcheck hhealth
  · intro hc now hdef hcnt
    simp [failUpdate, HealthCheck.should_retry, MAX_CONSECUTIVE_FAILURES, hdef, hcnt]
  · intro hc now hcnt
    simp [failUpdate, HealthCheck.should_retry, MAX_CONSECUTIVE_FAILURES, hcnt]
  · intro hc now hdef hlh
    simp [failUpdate, HealthCheck.should_retry, MAX_CONSECUTIVE_FAILURES, hdef, hlh]

/-- Witness for C1: a concrete non-default, never-healthy job fails its
first probe and the cycle leaves it out of the queue. -/
theorem c1_retry_policy_witness :
    popMin ([jobUntrusted] : List HealthCheck) = some (jobUntrusted, []) ∧
    dueFor jobUntrusted 10 = true ∧
    check_server cfgEx jobUntrusted.addr jobUntrusted.service (Except.error ()) =
      Except.error () ∧
    jobUntrusted.is_healthy = false ∧
    run_health_check cfgEx (Except.error ()) 10
        { queue := [jobUntrusted], healthy := [], clock := 0 } =
      some { queue := if (failUpdate jobUntrusted 10).should_retry
                      then [] ++ [failUpdate jobUntrusted 10] else []
             healthy := [], clock := 10 } :=
  ⟨by decide, by decide, by rfl, by decide,
    c1_retry_policy.2.1 cfgEx (Except.error ()) 10
      { queue := [jobUntrusted], healthy := [], clock := 0 } jobUntrusted []
      (by decide) (by decide) (by rfl) (by decide)⟩

/-- C3: a popped job is minimal in the last_check order with absent
timestamps first; a tick whose head job was checked less than an hour ago
probes nothing (so no job is probed twice within one hour); and in the
concrete scenario the two never-checked jobs pop before the job checked
two hours ago, which is itself due again at the two-hour mark but not
before one hour has elapsed since its own last check. -/
theorem c3_scheduler_order :
    (∀ (q : List HealthCheck) (hc : HealthCheck) (rest : List HealthCheck),
        popMin q = some (hc, rest) → ∀ j ∈ q, lcLE hc.last_check j.last_check = true) ∧
    (∀ (cfg : DiscoveryConfig) (probe : Except Unit ServerFeatures) (now : Nat)
        (st : DiscoveryState) (hc : HealthCheck) (rest : List HealthCheck) (t : Nat),
        popMin st.queue = some (hc, rest) → hc.last_check = some t →
        now - t < HEALTH_CHECK_FREQ → run_health_check cfg probe now st = some st) ∧
    (popMin [jobTwoHoursOld, jobNeverA, jobNeverB] =
        some (jobNeverA, [jobTwoHoursOld, jobNeverB]) ∧
      popMin [jobTwoHoursOld, jobNeverB] = some (jobNeverB, [jobTwoHoursOld]) ∧
      popMin [jobTwoHoursOld] = some (jobTwoHoursOld, []) ∧
      dueFor jobTwoHoursOld 7200 = true) ∧
    (∀ (cfg : DiscoveryConfig) (probe : Except Unit ServerFeatures),
        run_health_check cfg probe 3599 { queue := [jobTwoHoursOld], healthy := [], clock := 0 } =
          some { queue := [jobTwoHoursOld], healthy := [], clock := 0 }) := by
  refine ⟨?_, ?_, by decide, ?_⟩
  · intro q hc rest h
    exact popMin_min h
  · intro cfg probe now st hc rest t hpop hlc hlt
    exact run_skip hpop hlc hlt
  · intro cfg probe
    exact @run_skip cfg probe 3599 { queue := [jobTwoHoursOld], healthy := [], clock := 0 }
      jobTwoHoursOld [] 0 (by decide) (by decide) (by decide)

/-- Witness for C3: the pop lemma applied to a concrete one-job queue. -/
theorem c3_scheduler_order_witness :
    popMin ([jobNeverA] : List HealthCheck) = some (jobNeverA, []) ∧
    lcLE jobNeverA.last_check jobNeverA.last_check = true :=
  ⟨by decide,
    c3_scheduler_order.1 [jobNeverA] jobNeverA [] (by decide) jobNeverA (by simp)⟩

/-- C6: a successful probe sets last_check and last_healthy to the same
new timestamp and resets consecutive_failures to 0; a failed probe sets
last_check to the new timestamp, leaves last_healthy unchanged and
increments consecutive_failures by exactly 1; and the success branch of
the cycle re-enqueues exactly the so-updated job. -/
theorem c6_probe_bookkeeping :
    (∀ (hc : HealthCheck) (now : Nat),
        (succUpdate hc now).last_check = some now ∧
        (succUpdate hc now).last_healthy = some now ∧
        (succUpdate hc now).consecutive_failures = 0 ∧
        (failUpdate hc now).last_check = some now ∧
        (failUpdate hc now).last_healthy = hc.last_healthy ∧
        (failUpdate hc now).consecutive_failures = hc.consecutive_failures + 1) ∧
    (∀ (cfg : DiscoveryConfig) (probe : Except Unit ServerFeatures) (now : Nat)
        (st : DiscoveryState) (hc : HealthCheck) (rest : List HealthCheck)
        (f : ServerFeatures),
        popMin st.queue = some (hc, rest) → dueFor hc now = true →
        check_server cfg hc.addr hc.service probe = Except.ok f → hc.is_healthy = true →
        run_health_check cfg probe now st =
          some { queue := rest ++ [succUpdate hc now], healthy := st.healthy, clock := now }) := by
  refine ⟨?_, ?_⟩
  · intro hc now
    exact ⟨rfl, rfl, rfl, rfl, rfl, rfl⟩
  · intro cfg probe now st hc rest f hpop hdue hcheck hhealth
    exact run_ok_branch hpop hdue hcheck hhealth

/-- Witness for C6: a concrete healthy job succeeds its probe and is
re-enqueued with both timestamps advanced and the counter reset. -/
theorem c6_probe_bookkeeping_witness :
    popMin ([jobHealthy] : List HealthCheck) = some (jobHealthy, []) ∧
    dueFor jobHealthy 3700 = true ∧
    check_server cfgEx jobHealthy.addr jobHealthy.service (Except.ok featsEx) =
      Except.ok featsEx ∧
    jobHealthy.is_healthy = true ∧
    run_health_check cfgEx (Except.ok featsEx) 3700
        { queue := [jobHealthy], healthy := [], clock := 100 } =
      some { queue := [] ++ [succUpdate jobHealthy 3700], healthy := [], clock := 3700 } :=
  ⟨by decide, by decide, by rfl, by decide,
    c6_probe_bookkeeping.2 cfgEx (Except.ok featsEx) 3700
      { queue := [jobHealthy], healthy := [], clock := 100 } jobHealthy [] featsEx
      (by decide) (by decide) (by rfl) (by decide)⟩

/-- C7: the compatibility check accepts exactly when the genesis hash
matches, the declared protocol range contains this node's version, and
the hash function is the fixed sha256 identifier; every rejection is the
IncompatiblePeer error; and a peer declaring the range 1.0 to 1.2 is
rejected by a node at version 1.4. -/
theorem c7_compatibility :
    (∀ (cfg : DiscoveryConfig) (f : ServerFeatures),
        verify_compatibility cfg f = Except.ok () ↔
          (f.genesis_hash = cfg.our_genesis_hash ∧
            ProtocolVersion.le f.protocol_min cfg.our_version = true ∧
            ProtocolVersion.le cfg.our_version f.protocol_max = true ∧
            f.hash_function = "sha256")) ∧
    (∀ (cfg : DiscoveryConfig) (f : ServerFeatures),
        verify_compatibility cfg f ≠ Except.ok () →
        verify_compatibility cfg f = Except.error DiscoveryError.incompatiblePeer) ∧
    verify_compatibility cfgEx featsOldRange = Except.error DiscoveryError.incompatiblePeer ∧
    ProtocolVersion.le featsOldRange.protocol_min cfgEx.our_version = true ∧
    ProtocolVersion.le cfgEx.our_version featsOldRange.protocol_max = false := by
  refine ⟨?_, ?_, by rfl, by decide, by decide⟩
  · intro cfg f
    unfold verify_compatibility
    split_ifs with h1 h2 h3 <;> simp_all [Bool.and_eq_true]
  · intro cfg f h
    unfold verify_compatibility at h ⊢
    split_ifs at h ⊢ <;> simp_all

/-- Witness for C7: the rejection-shape lemma applied to the concrete
1.0-1.2 peer. -/
theorem c7_compatibility_witness :
    verify_compatibility cfgEx featsOldRange ≠ Except.ok () ∧
    verify_compatibility cfgEx featsOldRange = Except.error DiscoveryError.incompatiblePeer := by
  have hne : verify_compatibility cfgEx featsOldRange ≠ Except.ok () := by
    rw [show verify_compatibility cfgEx featsOldRange =
        Except.error DiscoveryError.incompatiblePeer from rfl]
    intro h
    exact Except.noConfusion h
  exact ⟨hne, c7_compatibility.2.1 cfgEx featsOldRange hne⟩

/-! ## Helper lemmas on admission -/

theorem hostSurvives_clearnet {env : ResolveEnv} {ip : IpAddr} {p : Hostname × Ports}
    {t : ServerAddr × Hostname × Ports} (h : hostSurvives env ip p = some t) :
    ∀ q : IpAddr, t.1 = ServerAddr.Clearnet q → q = ip := by
  intro q hq
  simp only [hostSurvives] at h
  by_cases hlen : (strToLower p.1).length > 100
  · rw [if_pos hlen] at h
    exact Option.noConfusion h
  · rw [if_neg hlen] at h
    cases hres : ServerAddr.resolve env (strToLower p.1) with
    | none =>
      rw [hres] at h
      exact Option.noConfusion h
    | some addr =>
      rw [hres] at h
      cases addr with
      | Clearnet q2 =>
        dsimp only at h
        by_cases hip : q2 = ip
        · rw [if_pos hip] at h
          have ht := Option.some.inj h
          subst ht
          cases hq
          exact hip
        · rw [if_neg hip] at h
          exact Option.noConfusion h
      | Onion hn =>
        dsimp only at h
        have ht := Option.some.inj h
        subst ht
        exact ServerAddr.noConfusion hq

theorem mem_candidateJobs {env : ResolveEnv} {ip : IpAddr} {hosts : List (Hostname × Ports)}
    {existing : ServerAddr → Service → Bool} {j : HealthCheck}
    (hj : j ∈ candidateJobs env ip hosts existing) :
    ∃ p t s, hostSurvives env ip p = some t ∧ s ∈ hostServices t.2.2 ∧
      existing t.1 s = false ∧ j = HealthCheck.new t.1 t.2.1 s (some ip) := by
  unfold candidateJobs at hj
  have hj2 := List.take_subset _ _ hj
  rw [List.mem_flatMap] at hj2
  obtain ⟨t, ht, hjt⟩ := hj2
  rw [List.mem_filterMap] at ht
  obtain ⟨p, hp, hsur⟩ := ht
  unfold hostJobs at hjt
  rw [List.mem_map] at hjt
  obtain ⟨s, hs, hjeq⟩ := hjt
  rw [List.mem_filter] at hs
  refine ⟨p, t, s, hsur, hs.1, ?_, hjeq.symm⟩
  simpa using hs.2

/-! ## Claim theorems (second group) -/

/-- C4: during admission every advertised hostname resolving to a
clearnet IP different from the reporting IP is skipped (no admitted job
carries a clearnet address other than the reporter's), and in the
concrete request carrying one spoofed clearnet entry next to a valid
onion entry, the valid entry's job is still admitted and the request
succeeds. -/
theorem c4_antispoof :
    (∀ (env : ResolveEnv) (ip : IpAddr) (hosts : List (Hostname × Ports))
        (existing : ServerAddr → Service → Bool) (j : HealthCheck) (q : IpAddr),
        j ∈ candidateJobs env ip hosts existing → j.addr = ServerAddr.Clearnet q → q = ip) ∧
    add_server_request cfgEx envSpoof 7 featsSpoof [] = ([jobOk], none) := by
  refine ⟨?_, by decide⟩
  intro env ip hosts existing j q hj hq
  obtain ⟨p, t, s, hsur, hmem, hex, rfl⟩ := mem_candidateJobs hj
  exact hostSurvives_clearnet hsur q hq

/-- Witness for C4: a host correctly advertising the reporter's own IP is
admitted, and the anti-spoofing lemma instantiates on it. -/
theorem c4_antispoof_witness :
    jobSelf ∈ candidateJobs envSelf 7 featsSelf.hosts (existingServices []) ∧
    jobSelf.addr = ServerAddr.Clearnet 7 ∧ (7 : IpAddr) = 7 :=
  ⟨by decide, by decide,
    c4_antispoof.1 envSelf 7 featsSelf.hosts (existingServices []) jobSelf 7
      (by decide) (by decide)⟩

/-- C9 (amended): one request considers at most 3 advertised hostnames
and admits at most 6 jobs, none of which is already pending in the queue;
however the admitted jobs may contain duplicate (address, service) pairs
when distinct advertised hostnames resolve to the same address (see the
counterexample). -/
theorem c9_request_caps :
    (∀ (env : ResolveEnv) (ip : IpAddr) (hosts : List (Hostname × Ports))
        (existing : ServerAddr → Service → Bool),
        (candidateJobs env ip hosts existing).length ≤ MAX_SERVICES_PER_REQUEST) ∧
    (∀ (env : ResolveEnv) (ip : IpAddr) (hosts : List (Hostname × Ports))
        (existing : ServerAddr → Service → Bool),
        candidateJobs env ip hosts existing =
          candidateJobs env ip (hosts.take MAX_SERVERS_PER_REQUEST) existing) ∧
    (∀ (env : ResolveEnv) (ip : IpAddr) (hosts : List (Hostname × Ports))
        (existing : ServerAddr → Service → Bool) (j : HealthCheck),
        j ∈ candidateJobs env ip hosts existing → existing j.addr j.service = false) := by
  refine ⟨?_, ?_, ?_⟩
  · intro env ip hosts existing
    unfold candidateJobs
    exact List.length_take_le _ _
  · intro env ip hosts existing
    simp [candidateJobs, List.take_take]
  · intro env ip hosts existing j hj
    obtain ⟨p, t, s, hsur, hmem, hex, rfl⟩ := mem_candidateJobs hj
    exact hex

/-- Witness for C9: one of the admitted duplicate jobs, with the
not-already-pending lemma instantiated on it. -/
theorem c9_request_caps_witness :
    jobDupAdmitted ∈ candidateJobs envNone 7 featsDup.hosts (existingServices []) ∧
    existingServices [] jobDupAdmitted.addr jobDupAdmitted.service = false :=
  ⟨by decide,
    c9_request_caps.2.2 envNone 7 featsDup.hosts (existingServices []) jobDupAdmitted
      (by decide)⟩

/-- Counterexample for C9: a request whose two distinct hostnames
(differing only in case) lowercase to the same onion address and advertise
the same port is admitted with the same (address, service) pair twice, so
the enqueued jobs are not duplicate-free. -/
theorem c9_duplicate_counterexample :
    (add_server_request cfgEx envNone 7 featsDup []).2 = none ∧
    (add_server_request cfgEx envNone 7 featsDup []).1.map (fun j => (j.addr, j.service)) =
      [(ServerAddr.Onion "dup.onion", Service.Tcp 50001),
        (ServerAddr.Onion "dup.onion", Service.Tcp 50001)] ∧
    ¬((add_server_request cfgEx envNone 7 featsDup []).1.map
        (fun j => (j.addr, j.service))).Nodup := by
  exact ⟨by decide, by decide, by decide⟩

/-- C10: the directory query returns one entry per registry pair carrying
that pair's address, hostname and feature strings; the feature strings
start with the v-version string, contain the p-pruning string when
pruning is advertised and one rendered string per healthy service; and on
the concrete registry entry the strings are exactly v1.4, p100, t60001,
s60002. -/
theorem c10_directory :
    (∀ (reg : List (ServerAddr × Server)) (p : ServerAddr × Server), p ∈ reg →
        ServerEntry.mk p.1 p.2.hostname (Server.feature_strs p.2) ∈ get_servers reg) ∧
    (∀ reg : List (ServerAddr × Server), (get_servers reg).length = reg.length) ∧
    (∀ srv : Server, (Server.feature_strs srv).head? =
        some ("v" ++ ProtocolVersion.toStr srv.features.protocol_max)) ∧
    (∀ (srv : Server) (n : Nat), srv.features.pruning = some n →
        ("p" ++ toString n) ∈ Server.feature_strs srv) ∧
    (∀ (srv : Server) (s : Service), s ∈ srv.services →
        Service.toStr s ∈ Server.feature_strs srv) ∧
    get_servers [(addrEx, srvEx)] =
      [{ addr := addrEx, hostname := "h.example",
         features := ["v1.4", "p100", "t60001", "s60002"] }] := by
  refine ⟨?_, ?_, ?_, ?_, ?_, by decide⟩
  · intro reg p hp
    exact List.mem_map_of_mem _ hp
  · intro reg
    simp [get_servers]
  · intro srv
    rfl
  · intro srv n hn
    simp [Server.feature_strs, hn]
  · intro srv s hs
    simp only [Server.feature_strs, List.mem_cons, List.mem_append, List.mem_map]
    right
    right
    exact ⟨s, hs, rfl⟩

/-- Witness for C10: the per-entry lemma instantiated on the concrete
registry. -/
theorem c10_directory_witness :
    (addrEx, srvEx) ∈ [(addrEx, srvEx)] ∧
    ServerEntry.mk addrEx srvEx.hostname (Server.feature_strs srvEx) ∈
      get_servers [(addrEx, srvEx)] :=
  ⟨by simp, c10_directory.1 [(addrEx, srvEx)] (addrEx, srvEx) (by simp)⟩

/-! ## Helper lemmas on the admission error paths -/

theorem asr_precheck_full {cfg : DiscoveryConfig} {env : ResolveEnv} {ip : IpAddr}
    {f : ServerFeatures} {queue : List HealthCheck}
    (hok : verify_compatibility cfg f = Except.ok ())
    (hlen : MAX_QUEUE_SIZE ≤ queue.length) :
    add_server_request cfg env ip f queue = (queue, some DiscoveryError.queueFull) := by
  unfold add_server_request
  rw [hok]
  dsimp only
  rw [if_neg (by omega)]

theorem asr_no_new_entries {cfg : DiscoveryConfig} {env : ResolveEnv} {ip : IpAddr}
    {f : ServerFeatures} {queue : List HealthCheck}
    (hok : verify_compatibility cfg f = Except.ok ())
    (hlt : queue.length < MAX_QUEUE_SIZE)
    (hempty : candidateJobs env ip f.hosts (existingServices queue) = []) :
    add_server_request cfg env ip f queue = (queue, some DiscoveryError.noNewEntries) := by
  unfold add_server_request
  rw [hok]
  dsimp only
  rw [if_pos hlt, hempty]
  simp

theorem asr_overflow {cfg : DiscoveryConfig} {env : ResolveEnv} {ip : IpAddr}
    {f : ServerFeatures} {queue : List HealthCheck}
    (hok : verify_compatibility cfg f = Except.ok ())
    (hlt : queue.length < MAX_QUEUE_SIZE)
    (hne : candidateJobs env ip f.hosts (existingServices queue) ≠ [])
    (hgt : MAX_QUEUE_SIZE <
      queue.length + (candidateJobs env ip f.hosts (existingServices queue)).length) :
    add_server_request cfg env ip f queue = (queue, some DiscoveryError.queueFull) := by
  unfold add_server_request
  rw [hok]
  dsimp only
  rw [if_pos hlt]
  have h1 : (candidateJobs env ip f.hosts (existingServices queue)).isEmpty = false := by
    cases hcj : candidateJobs env ip f.hosts (existingServices queue) with
    | nil => exact absurd hcj hne
    | cons a l => simp
  rw [h1]
  simp only [Bool.false_eq_true, if_false]
  rw [if_neg (by omega)]

theorem asr_error_unchanged {cfg : DiscoveryConfig} {env : ResolveEnv} {ip : IpAddr}
    {f : ServerFeatures} {queue : List HealthCheck} (e : DiscoveryError)
    (h : (add_server_request cfg env ip f queue).2 = some e) :
    (add_server_request cfg env ip f queue).1 = queue := by
  unfold add_server_request at h ⊢
  cases hv : verify_compatibility cfg f with
  | error e2 => rfl
  | ok u =>
    rw [hv] at h
    dsimp only at h ⊢
    by_cases h1 : queue.length < MAX_QUEUE_SIZE
    · rw [if_pos h1] at h ⊢
      by_cases h2 : (candidateJobs env ip f.hosts (existingServices queue)).isEmpty = true
      · rw [if_pos h2]
      · rw [if_neg h2] at h ⊢
        by_cases h3 : queue.length +
            (candidateJobs env ip f.hosts (existingServices queue)).length ≤ MAX_QUEUE_SIZE
        · rw [if_pos h3] at h
          exact Option.noConfusion h
        · rw [if_neg h3]
    · rw [if_neg h1]

/-- C8 (amended): admission rejects with QueueFull when the queue already
holds at least 500 jobs before filtering; rejects with NoNewEntries when
the filtered job set is empty; rejects with QueueFull (not NoNewEntries
as the claim states) when adding the filtered jobs would push the queue
past the 500-job bound; and every rejection leaves the queue unchanged. -/
theorem c8_rejection_policy :
    ∀ (cfg : DiscoveryConfig) (env : ResolveEnv) (ip : IpAddr) (f : ServerFeatures)
      (queue : List HealthCheck),
      (verify_compatibility cfg f = Except.ok () → MAX_QUEUE_SIZE ≤ queue.length →
        add_server_request cfg env ip f queue = (queue, some DiscoveryError.queueFull)) ∧
      (verify_compatibility cfg f = Except.ok () → queue.length < MAX_QUEUE_SIZE →
        candidateJobs env ip f.hosts (existingServices queue) = [] →
        add_server_request cfg env ip f queue = (queue, some DiscoveryError.noNewEntries)) ∧
      (verify_compatibility cfg f = Except.ok () → queue.length < MAX_QUEUE_SIZE →
        candidateJobs env ip f.hosts (existingServices queue) ≠ [] →
        MAX_QUEUE_SIZE < queue.length +
          (candidateJobs env ip f.hosts (existingServices queue)).length →
        add_server_request cfg env ip f queue = (queue, some DiscoveryError.queueFull)) ∧
      (∀ e : DiscoveryError, (add_server_request cfg env ip f queue).2 = some e →
        (add_server_request cfg env ip f queue).1 = queue) := by
  intro cfg env ip f queue
  exact ⟨fun hok hlen => asr_precheck_full hok hlen,
    fun hok hlt hempty => asr_no_new_entries hok hlt hempty,
    fun hok hlt hne hgt => asr_overflow hok hlt hne hgt,
    fun e h => asr_error_unchanged e h⟩

/-- Witness for C8: the pre-check rejection instantiated on a concrete
full queue of 500 jobs. -/
theorem c8_rejection_policy_witness :
    verify_compatibility cfgEx featsBig = Except.ok () ∧
    MAX_QUEUE_SIZE ≤ queue500.length ∧
    add_server_request cfgEx envNone 7 featsBig queue500 =
      (queue500, some DiscoveryError.queueFull) := by
  have h1 : verify_compatibility cfgEx featsBig = Except.ok () := by rfl
  have h2 : MAX_QUEUE_SIZE ≤ queue500.length := by
    simp only [queue500, List.length_replicate, MAX_QUEUE_SIZE]
    omega
  exact ⟨h1, h2, (c8_rejection_policy cfgEx envNone 7 featsBig queue500).1 h1 h2⟩

set_option maxRecDepth 100000 in
/-- Counterexample for C8: with 499 pending jobs and a compatible request
producing two new jobs, the queue is below the bound and the filtered set
is nonempty, yet admission rejects with QueueFull ("queue size
exceeded"), not NoNewEntries as the claim states for the overflow case. -/
theorem c8_overflow_counterexample :
    queue499.length < MAX_QUEUE_SIZE ∧
    candidateJobs envNone 7 featsBig.hosts (existingServices queue499) ≠ [] ∧
    add_server_request cfgEx envNone 7 featsBig queue499 =
      (queue499, some DiscoveryError.queueFull) ∧
    DiscoveryError.queueFull ≠ DiscoveryError.noNewEntries := by
  have hok : verify_compatibility cfgEx featsBig = Except.ok () := by rfl
  have hlt : queue499.length < MAX_QUEUE_SIZE := by
    simp only [queue499, List.length_replicate, MAX_QUEUE_SIZE]
    omega
  have hlen : (candidateJobs envNone 7 featsBig.hosts (existingServices queue499)).length = 2 := by
    decide
  have hne : candidateJobs envNone 7 featsBig.hosts (existingServices queue499) ≠ [] := by
    intro hcontra
    rw [hcontra] at hlen
    simp at hlen
  have hgt : MAX_QUEUE_SIZE <
      queue499.length + (candidateJobs envNone 7 featsBig.hosts (existingServices queue499)).length := by
    rw [hlen]
    simp only [queue499, List.length_replicate, MAX_QUEUE_SIZE]
    omega
  exact ⟨hlt, hne, asr_overflow hok hlt hne hgt, by decide⟩

/-! ## Helper lemmas on the healthy registry -/

theorem lookup_none_of_not_mem_keys :
    ∀ {reg : List (ServerAddr × Server)} {a : ServerAddr},
      a ∉ reg.map Prod.fst → lookupServer reg a = none := by
  intro reg
  induction reg with
  | nil => intro a h; rfl
  | cons p rest ih =>
    intro a h
    obtain ⟨a0, srv0⟩ := p
    simp only [List.map_cons, List.mem_cons] at h
    push_neg at h
    simp only [lookupServer]
    rw [if_neg (fun heq => h.1 heq.symm)]
    exact ih h.2

theorem save_keys {hc : HealthCheck} {f : ServerFeatures} :
    ∀ {reg reg2 : List (ServerAddr × Server)}, save_healthy_service hc f reg = some reg2 →
      ∀ b ∈ reg2.map Prod.fst, b = hc.addr ∨ b ∈ reg.map Prod.fst := by
  intro reg
  induction reg with
  | nil =>
    intro reg2 h b hb
    simp only [save_healthy_service] at h
    have h2 := Option.some.inj h
    subst h2
    simp at hb
    exact Or.inl hb
  | cons p rest ih =>
    intro reg2 h b hb
    obtain ⟨a0, srv0⟩ := p
    simp only [save_healthy_service] at h
    by_cases h0 : a0 = hc.addr
    · rw [if_pos h0] at h
      by_cases hm : hc.service ∈ srv0.services
      · rw [if_pos hm] at h
        exact Option.noConfusion h
      · rw [if_neg hm] at h
        have h2 := Option.some.inj h
        subst h2
        simp only [List.map_cons, List.mem_cons] at hb ⊢
        rcases hb with rfl | hbm
        · exact Or.inr (Or.inl rfl)
        · exact Or.inr (Or.inr hbm)
    · rw [if_neg h0] at h
      rw [Option.map_eq_some'] at h
      obtain ⟨r2, hr2, rfl⟩ := h
      simp only [List.map_cons, List.mem_cons] at hb ⊢
      rcases hb with rfl | hbm
      · exact Or.inr (Or.inl rfl)
      · rcases ih hr2 b hbm with h1 | h2
        · exact Or.inl h1
        · exact Or.inr (Or.inr h2)

theorem save_keys_nodup {hc : HealthCheck} {f : ServerFeatures} :
    ∀ {reg reg2 : List (ServerAddr × Server)}, save_healthy_service hc f reg = some reg2 →
      (reg.map Prod.fst).Nodup → (reg2.map Prod.fst).Nodup := by
  intro reg
  induction reg with
  | nil =>
    intro reg2 h hnd
    simp only [save_healthy_service] at h
    have h2 := Option.some.inj h
    subst h2
    simp
  | cons p rest ih =>
    intro reg2 h hnd
    obtain ⟨a0, srv0⟩ := p
    simp only [List.map_cons, List.nodup_cons] at hnd
    simp only [save_healthy_service] at h
    by_cases h0 : a0 = hc.addr
    · rw [if_pos h0] at h
      by_cases hm : hc.service ∈ srv0.services
      · rw [if_pos hm] at h
        exact Option.noConfusion h
      · rw [if_neg hm] at h
        have h2 := Option.some.inj h
        subst h2
        simp only [List.map_cons, List.nodup_cons]
        exact ⟨hnd.1, hnd.2⟩
    · rw [if_neg h0] at h
      rw [Option.map_eq_some'] at h
      obtain ⟨r2, hr2, rfl⟩ := h
      simp only [List.map_cons, List.nodup_cons]
      refine ⟨?_, ih hr2 hnd.2⟩
      intro hmem
      rcases save_keys hr2 a0 hmem with h1 | h2
      · exact h0 h1
      · exact hnd.1 h2

theorem save_lookup_self {hc : HealthCheck} {f : ServerFeatures} :
    ∀ {reg reg2 : List (ServerAddr × Server)},
      save_healthy_service hc f reg = some reg2 →
      ∃ srv2, lookupServer reg2 hc.addr = some srv2 ∧
        ((∃ srv, lookupServer reg hc.addr = some srv ∧ hc.service ∉ srv.services ∧
            srv2.services = hc.service :: srv.services) ∨
          (lookupServer reg hc.addr = none ∧ srv2.services = [hc.service])) := by
  intro reg
  induction reg with
  | nil =>
    intro reg2 h
    simp only [save_healthy_service] at h
    have h2 := Option.some.inj h
    subst h2
    refine ⟨{ services := [hc.service], hostname := hc.hostname, features := f }, ?_,
      Or.inr ⟨rfl, rfl⟩⟩
    simp [lookupServer]
  | cons p rest ih =>
    intro reg2 h
    obtain ⟨a0, srv0⟩ := p
    simp only [save_healthy_service] at h
    by_cases h0 : a0 = hc.addr
    · subst h0
      rw [if_pos rfl] at h
      by_cases hm : hc.service ∈ srv0.services
      · rw [if_pos hm] at h
        exact Option.noConfusion h
      · rw [if_neg hm] at h
        have h2 := Option.some.inj h
        subst h2
        refine ⟨{ srv0 with services := hc.service :: srv0.services }, ?_,
          Or.inl ⟨srv0, ?_, hm, rfl⟩⟩
        · simp [lookupServer]
        · simp [lookupServer]
    · rw [if_neg h0] at h
      rw [Option.map_eq_some'] at h
      obtain ⟨r2, hr2, rfl⟩ := h
      obtain ⟨srv2, hl2, hcases⟩ := ih hr2
      refine ⟨srv2, ?_, ?_⟩
      · simp only [lookupServer]
        rw [if_neg h0]
        exact hl2
      · cases hcases with
        | inl h1 =>
          obtain ⟨srv, hsrv, hnm, hsv⟩ := h1
          refine Or.inl ⟨srv, ?_, hnm, hsv⟩
          simp only [lookupServer]
          rw [if_neg h0]
          exact hsrv
        | inr h1 =>
          refine Or.inr ⟨?_, h1.2⟩
          simp only [lookupServer]
          rw [if_neg h0]
          exact h1.1

theorem save_lookup_other {hc : HealthCheck} {f : ServerFeatures} {a : ServerAddr}
    (ha : a ≠ hc.addr) :
    ∀ {reg reg2 : List (ServerAddr × Server)}, save_healthy_service hc f reg = some reg2 →
      lookupServer reg2 a = lookupServer reg a := by
  intro reg
  induction reg with
  | nil =>
    intro reg2 h
    simp only [save_healthy_service] at h
    have h2 := Option.some.inj h
    subst h2
    simp only [lookupServer]
    rw [if_neg (fun heq => ha heq.symm)]
  | cons p rest ih =>
    intro reg2 h
    obtain ⟨a0, srv0⟩ := p
    simp only [save_healthy_service] at h
    by_cases h0 : a0 = hc.addr
    · subst h0
      rw [if_pos rfl] at h
      by_cases hm : hc.service ∈ srv0.services
      · rw [if_pos hm] at h
        exact Option.noConfusion h
      · rw [if_neg hm] at h
        have h2 := Option.some.inj h
        subst h2
        simp only [lookupServer]
        rw [if_neg (fun heq => ha heq.symm), if_neg (fun heq => ha heq.symm)]
    · rw [if_neg h0] at h
      rw [Option.map_eq_some'] at h
      obtain ⟨r2, hr2, rfl⟩ := h
      simp only [lookupServer]
      by_cases h1 : a0 = a
      · rw [if_pos h1, if_pos h1]
      · rw [if_neg h1, if_neg h1]
        exact ih hr2

theorem save_not_mem {hc : HealthCheck} {f : ServerFeatures}
    {reg reg2 : List (ServerAddr × Server)} (h : save_healthy_service hc f reg = some reg2) :
    ∀ srv, lookupServer reg hc.addr = some srv → hc.service ∉ srv.services := by
  intro srv hl hmem
  obtain ⟨srv2, _, hcases⟩ := save_lookup_self h
  cases hcases with
  | inl h1 =>
    obtain ⟨srv0, hl0, hnm, _⟩ := h1
    rw [hl0] at hl
    cases Option.some.inj hl
    exact hnm hmem
  | inr h1 =>
    rw [h1.1] at hl
    exact Option.noConfusion hl

theorem remove_keys {hc : HealthCheck} :
    ∀ {reg reg2 : List (ServerAddr × Server)}, remove_unhealthy_service hc reg = some reg2 →
      ∀ b ∈ reg2.map Prod.fst, b ∈ reg.map Prod.fst := by
  intro reg
  induction reg with
  | nil =>
    intro reg2 h
    simp only [remove_unhealthy_service] at h
    exact Option.noConfusion h
  | cons p rest ih =>
    intro reg2 h b hb
    obtain ⟨a0, srv0⟩ := p
    simp only [remove_unhealthy_service] at h
    by_cases h0 : a0 = hc.addr
    · rw [if_pos h0] at h
      by_cases hm : hc.service ∈ srv0.services
      · rw [if_pos hm] at h
        have h2 := Option.some.inj h
        subst h2
        by_cases he : (srv0.services.erase hc.service).isEmpty = true
        · rw [if_pos he] at hb
          exact List.mem_cons_of_mem _ hb
        · rw [if_neg he] at hb
          simp only [List.map_cons, List.mem_cons] at hb ⊢
          exact hb
      · rw [if_neg hm] at h
        exact Option.noConfusion h
    · rw [if_neg h0] at h
      rw [Option.map_eq_some'] at h
      obtain ⟨r2, hr2, rfl⟩ := h
      simp only [List.map_cons, List.mem_cons] at hb ⊢
      rcases hb with rfl | hbm
      · exact Or.inl rfl
      · exact Or.inr (ih hr2 b hbm)

theorem remove_keys_nodup {hc : HealthCheck} :
    ∀ {reg reg2 : List (ServerAddr × Server)}, remove_unhealthy_service hc reg = some reg2 →
      (reg.map Prod.fst).Nodup → (reg2.map Prod.fst).Nodup := by
  intro reg
  induction reg with
  | nil =>
    intro reg2 h
    simp only [remove_unhealthy_service] at h
    exact Option.noConfusion h
  | cons p rest ih =>
    intro reg2 h hnd
    obtain ⟨a0, srv0⟩ := p
    simp only [List.map_cons, List.nodup_cons] at hnd
    simp only [remove_unhealthy_service] at h
    by_cases h0 : a0 = hc.addr
    · rw [if_pos h0] at h
      by_cases hm : hc.service ∈ srv0.services
      · rw [if_pos hm] at h
        have h2 := Option.some.inj h
        subst h2
        by_cases he : (srv0.services.erase hc.service).isEmpty = true
        · rw [if_pos he]
          exact hnd.2
        · rw [if_neg he]
          simp only [List.map_cons, List.nodup_cons]
          exact ⟨hnd.1, hnd.2⟩
      · rw [if_neg hm] at h
        exact Option.noConfusion h
    · rw [if_neg h0] at h
      rw [Option.map_eq_some'] at h
      obtain ⟨r2, hr2, rfl⟩ := h
      simp only [List.map_cons, List.nodup_cons]
      exact ⟨fun hmem => hnd.1 (remove_keys hr2 a0 hmem), ih hr2 hnd.2⟩

theorem remove_lookup_self {hc : HealthCheck} :
    ∀ {reg reg2 : List (ServerAddr × Server)}, (reg.map Prod.fst).Nodup →
      remove_unhealthy_service hc reg = some reg2 →
      ∃ srv, lookupServer reg hc.addr = some srv ∧ hc.service ∈ srv.services ∧
        ((srv.services.erase hc.service = [] ∧ lookupServer reg2 hc.addr = none) ∨
          (srv.services.erase hc.service ≠ [] ∧
            ∃ srv2, lookupServer reg2 hc.addr = some srv2 ∧
              srv2.services = srv.services.erase hc.service)) := by
  intro reg
  induction reg with
  | nil =>
    intro reg2 hnd h
    simp only [remove_unhealthy_service] at h
    exact Option.noConfusion h
  | cons p rest ih =>
    intro reg2 hnd h
    obtain ⟨a0, srv0⟩ := p
    simp only [List.map_cons, List.nodup_cons] at hnd
    simp only [remove_unhealthy_service] at h
    by_cases h0 : a0 = hc.addr
    · subst h0
      rw [if_pos rfl] at h
      by_cases hm : hc.service ∈ srv0.services
      · rw [if_pos hm] at h
        have h2 := Option.some.inj h
        subst h2
        refine ⟨srv0, by simp [lookupServer], hm, ?_⟩
        by_cases he : (srv0.services.erase hc.service).isEmpty = true
        · rw [if_pos he]
          exact Or.inl ⟨List.isEmpty_iff.mp he, lookup_none_of_not_mem_keys hnd.1⟩
        · rw [if_neg he]
          refine Or.inr ⟨?_, { srv0 with services := srv0.services.erase hc.service }, ?_, rfl⟩
          · intro hcon
            exact he (by rw [hcon]; rfl)
          · simp [lookupServer]
      · rw [if_neg hm] at h
        exact Option.noConfusion h
    · rw [if_neg h0] at h
      rw [Option.map_eq_some'] at h
      obtain ⟨r2, hr2, rfl⟩ := h
      obtain ⟨srv, hl, hm, hres⟩ := ih hnd.2 hr2
      refine ⟨srv, ?_, hm, ?_⟩
      · simp only [lookupServer]
        rw [if_neg h0]
        exact hl
      · cases hres with
        | inl h1 =>
          refine Or.inl ⟨h1.1, ?_⟩
          simp only [lookupServer]
          rw [if_neg h0]
          exact h1.2
        | inr h1 =>
          obtain ⟨hne, srv2, hl2, hsv⟩ := h1
          refine Or.inr ⟨hne, srv2, ?_, hsv⟩
          simp only [lookupServer]
          rw [if_neg h0]
          exact hl2

theorem remove_lookup_other {hc : HealthCheck} {a : ServerAddr} (ha : a ≠ hc.addr) :
    ∀ {reg reg2 : List (ServerAddr × Server)}, remove_unhealthy_service hc reg = some reg2 →
      lookupServer reg2 a = lookupServer reg a := by
  intro reg
  induction reg with
  | nil =>
    intro reg2 h
    simp only [remove_unhealthy_service] at h
    exact Option.noConfusion h
  | cons p rest ih =>
    intro reg2 h
    obtain ⟨a0, srv0⟩ := p
    simp only [remove_unhealthy_service] at h
    by_cases h0 : a0 = hc.addr
    · subst h0
      rw [if_pos rfl] at h
      by_cases hm : hc.service ∈ srv0.services
      · rw [if_pos hm] at h
        have h2 := Option.some.inj h
        subst h2
        by_cases he : (srv0.services.erase hc.service).isEmpty = true
        · rw [if_pos he]
          simp only [lookupServer]
          rw [if_neg (fun heq => ha heq.symm)]
        · rw [if_neg he]
          simp only [lookupServer]
          rw [if_neg (fun heq => ha heq.symm), if_neg (fun heq => ha heq.symm)]
      · rw [if_neg hm] at h
        exact Option.noConfusion h
    · rw [if_neg h0] at h
      rw [Option.map_eq_some'] at h
      obtain ⟨r2, hr2, rfl⟩ := h
      simp only [lookupServer]
      by_cases h1 : a0 = a
      · rw [if_pos h1, if_pos h1]
      · rw [if_neg h1, if_neg h1]
        exact ih hr2

/-! ## Helper lemmas on jobs and the pairwise key discipline -/

theorem new_not_healthy (a : ServerAddr) (h : Hostname) (s : Service) (ab : Option IpAddr) :
    (HealthCheck.new a h s ab).is_healthy = false := rfl

theorem not_healthy_of_lc_none {j : HealthCheck} (h : j.last_check = none) :
    j.is_healthy = false := by
  simp [HealthCheck.is_healthy, h]

theorem succUpdate_healthy (hc : HealthCheck) (now : Nat) :
    (succUpdate hc now).is_healthy = true := by
  simp [succUpdate, HealthCheck.is_healthy]

theorem healthy_shape {hc : HealthCheck} (h : hc.is_healthy = true) :
    ∃ t, hc.last_check = some t ∧ hc.last_healthy = some t := by
  unfold HealthCheck.is_healthy at h
  cases hlc : hc.last_check with
  | none => rw [hlc] at h; exact Bool.noConfusion h
  | some t =>
    cases hlh : hc.last_healthy with
    | none => rw [hlc, hlh] at h; exact Bool.noConfusion h
    | some t2 =>
      rw [hlc, hlh] at h
      dsimp only at h
      have ht : t = t2 := by simpa using h
      exact ⟨t, rfl, by rw [ht]⟩

theorem due_lt {hc : HealthCheck} {now t : Nat} (hlc : hc.last_check = some t)
    (hdue : dueFor hc now = true) : t < now := by
  simp [dueFor, hlc, HEALTH_CHECK_FREQ] at hdue
  omega

theorem failUpdate_not_healthy {hc : HealthCheck} {now : Nat}
    (hsh : ∀ h, hc.last_healthy = some h → ∃ t, hc.last_check = some t ∧ h ≤ t)
    (hdue : dueFor hc now = true) : (failUpdate hc now).is_healthy = false := by
  cases hlh : hc.last_healthy with
  | none => simp [failUpdate, HealthCheck.is_healthy, hlh]
  | some h =>
    obtain ⟨t, hlc, hle⟩ := hsh h hlh
    have hlt : t < now := due_lt hlc hdue
    have hne : now ≠ h := by omega
    simp [failUpdate, HealthCheck.is_healthy, hlh]
    omega

theorem hkeyDistinct_symm {a b : HealthCheck} (h : hkeyDistinct a b) : hkeyDistinct b a := by
  unfold hkeyDistinct at h ⊢
  intro hcon
  exact h ⟨hcon.2.1, hcon.1, hcon.2.2.1.symm, hcon.2.2.2.symm⟩

theorem hkeyDistinct_of_unhealthy {a b : HealthCheck} (h : b.is_healthy = false) :
    hkeyDistinct a b := by
  unfold hkeyDistinct
  intro hcon
  rw [h] at hcon
  exact Bool.noConfusion hcon.2.1

theorem pairwise_middle {l1 l2 : List HealthCheck} {x : HealthCheck}
    (h : (l1 ++ x :: l2).Pairwise hkeyDistinct) : ∀ j ∈ l1 ++ l2, hkeyDistinct x j := by
  rw [List.pairwise_append] at h
  intro j hj
  rcases List.mem_append.mp hj with h1 | h2
  · exact hkeyDistinct_symm (h.2.2 j h1 x (List.mem_cons_self x l2))
  · exact (List.pairwise_cons.mp h.2.1).1 j h2

theorem pairwise_remove_middle {l1 l2 : List HealthCheck} {x : HealthCheck}
    (h : (l1 ++ x :: l2).Pairwise hkeyDistinct) : (l1 ++ l2).Pairwise hkeyDistinct :=
  h.sublist (List.Sublist.append_left (List.sublist_cons_self x l2) l1)

theorem pairwise_append_singleton {l : List HealthCheck} {x : HealthCheck}
    (hl : l.Pairwise hkeyDistinct) (hx : ∀ j ∈ l, hkeyDistinct j x) :
    (l ++ [x]).Pairwise hkeyDistinct := by
  rw [List.pairwise_append]
  refine ⟨hl, List.pairwise_singleton _ _, ?_⟩
  intro a ha b hb
  rcases List.mem_singleton.mp hb with rfl
  exact hx a ha

theorem mem_middle_elim {l1 l2 : List HealthCheck} {x w : HealthCheck}
    (h : w ∈ l1 ++ x :: l2) : w = x ∨ w ∈ l1 ++ l2 := by
  rcases List.mem_append.mp h with h1 | h2
  · exact Or.inr (List.mem_append_left _ h1)
  · rcases List.mem_cons.mp h2 with rfl | h3
    · exact Or.inl rfl
    · exact Or.inr (List.mem_append_right _ h3)

theorem mem_middle_intro {l1 l2 : List HealthCheck} {x w : HealthCheck}
    (h : w ∈ l1 ++ l2) : w ∈ l1 ++ x :: l2 := by
  rcases List.mem_append.mp h with h1 | h2
  · exact List.mem_append_left _ h1
  · exact List.mem_append_right _ (List.mem_cons_of_mem x h2)

theorem mem_middle_self (l1 : List HealthCheck) (x : HealthCheck) (l2 : List HealthCheck) :
    x ∈ l1 ++ x :: l2 :=
  List.mem_append_right _ (List.mem_cons_self x l2)

theorem candidate_lc_none {env : ResolveEnv} {ip : IpAddr} {hosts : List (Hostname × Ports)}
    {existing : ServerAddr → Service → Bool} {j : HealthCheck}
    (hj : j ∈ candidateJobs env ip hosts existing) :
    j.last_check = none ∧ j.last_healthy = none := by
  obtain ⟨p, t, s, _, _, _, rfl⟩ := mem_candidateJobs hj
  exact ⟨rfl, rfl⟩

theorem add_request_decomp {cfg : DiscoveryConfig} {env : ResolveEnv} {ip : IpAddr}
    {f : ServerFeatures} {q q2 : List HealthCheck}
    (h : add_server_request cfg env ip f q = (q2, none)) :
    q2 = q ++ candidateJobs env ip f.hosts (existingServices q) := by
  unfold add_server_request at h
  cases hv : verify_compatibility cfg f with
  | error e =>
    rw [hv] at h
    dsimp only at h
    have := congrArg Prod.snd h
    simp at this
  | ok u =>
    rw [hv] at h
    dsimp only at h
    by_cases h1 : q.length < MAX_QUEUE_SIZE
    · rw [if_pos h1] at h
      by_cases h2 : (candidateJobs env ip f.hosts (existingServices q)).isEmpty = true
      · rw [if_pos h2] at h
        have := congrArg Prod.snd h
        simp at this
      · rw [if_neg h2] at h
        by_cases h3 : q.length +
            (candidateJobs env ip f.hosts (existingServices q)).length ≤ MAX_QUEUE_SIZE
        · rw [if_pos h3] at h
          have := congrArg Prod.fst h
          simpa using this.symm
        · rw [if_neg h3] at h
          have := congrArg Prod.snd h
          simp at this
    · rw [if_neg h1] at h
      have := congrArg Prod.snd h
      simp at this

/-! ## Invariant preservation -/

theorem pairwise_of_unhealthy {l : List HealthCheck}
    (h : ∀ j ∈ l, j.is_healthy = false) : l.Pairwise hkeyDistinct := by
  induction l with
  | nil => exact List.Pairwise.nil
  | cons a tl ih =>
    refine List.Pairwise.cons ?_ (ih fun j hj => h j (List.mem_cons_of_mem a hj))
    intro b hb
    exact hkeyDistinct_of_unhealthy (h b (List.mem_cons_of_mem a hb))

theorem stateInv_extend_unhealthy {q new : List HealthCheck}
    {reg : List (ServerAddr × Server)} {c c2 : Nat} (hinv : StateInv ⟨q, reg, c⟩)
    (hnew : ∀ j ∈ new, j.is_healthy = false ∧
      (∀ h, j.last_healthy = some h → ∃ t, j.last_check = some t ∧ h ≤ t)) :
    StateInv ⟨q ++ new, reg, c2⟩ := by
  constructor
  · exact hinv.keysNodup
  · exact hinv.entryNonempty
  · exact hinv.svcNodup
  · intro a srv hl s hs
    obtain ⟨w, hw, hwa, hws, hwh⟩ := hinv.regToQueue a srv hl s hs
    exact ⟨w, List.mem_append_left _ hw, hwa, hws, hwh⟩
  · intro j hj hjh
    rcases List.mem_append.mp hj with h1 | h2
    · exact hinv.queueToReg j h1 hjh
    · rw [(hnew j h2).1] at hjh
      exact Bool.noConfusion hjh
  · rw [List.pairwise_append]
    refine ⟨hinv.uniqHealthy, pairwise_of_unhealthy fun j hj => (hnew j hj).1, ?_⟩
    intro a ha b hb
    exact hkeyDistinct_of_unhealthy (hnew b hb).1
  · intro j hj h hlh
    rcases List.mem_append.mp hj with h1 | h2
    · exact hinv.lhShape j h1 h hlh
    · exact (hnew j h2).2 h hlh

theorem stateInv_drop_middle {st : DiscoveryState} {hc : HealthCheck}
    {l1 l2 : List HealthCheck} {c2 : Nat} (hq : st.queue = l1 ++ hc :: l2)
    (hh : hc.is_healthy = false) (hinv : StateInv st) :
    StateInv ⟨l1 ++ l2, st.healthy, c2⟩ := by
  have hpw : (l1 ++ hc :: l2).Pairwise hkeyDistinct := hq ▸ hinv.uniqHealthy
  constructor
  · exact hinv.keysNodup
  · exact hinv.entryNonempty
  · exact hinv.svcNodup
  · intro a srv hl s hs
    obtain ⟨w, hw, hwa, hws, hwh⟩ := hinv.regToQueue a srv hl s hs
    rw [hq] at hw
    rcases mem_middle_elim hw with rfl | hw2
    · rw [hh] at hwh
      exact Bool.noConfusion hwh
    · exact ⟨w, hw2, hwa, hws, hwh⟩
  · intro j hj hjh
    exact hinv.queueToReg j (by rw [hq]; exact mem_middle_intro hj) hjh
  · exact pairwise_remove_middle hpw
  · intro j hj h hlh
    exact hinv.lhShape j (by rw [hq]; exact mem_middle_intro hj) h hlh

theorem stateInv_remove_core {st : DiscoveryState} {hc : HealthCheck}
    {l1 l2 : List HealthCheck} {reg2 : List (ServerAddr × Server)} {c2 : Nat}
    (hq : st.queue = l1 ++ hc :: l2) (hh : hc.is_healthy = true)
    (hreg : remove_unhealthy_service hc st.healthy = some reg2)
    (hinv : StateInv st) : StateInv ⟨l1 ++ l2, reg2, c2⟩ := by
  have hpw : (l1 ++ hc :: l2).Pairwise hkeyDistinct := hq ▸ hinv.uniqHealthy
  obtain ⟨srv, hlk, hsm, hres⟩ := remove_lookup_self hinv.keysNodup hreg
  have hnd_srv : srv.services.Nodup := hinv.svcNodup hc.addr srv hlk
  constructor
  · exact remove_keys_nodup hreg hinv.keysNodup
  · intro a srv2 hl
    by_cases ha : a = hc.addr
    · subst ha
      cases hres with
      | inl h1 =>
        rw [h1.2] at hl
        exact Option.noConfusion hl
      | inr h1 =>
        obtain ⟨hne, srv3, hl3, hsv⟩ := h1
        rw [hl3] at hl
        cases Option.some.inj hl
        rw [hsv]
        exact hne
    · rw [remove_lookup_other ha hreg] at hl
      exact hinv.entryNonempty a srv2 hl
  · intro a srv2 hl
    by_cases ha : a = hc.addr
    · subst ha
      cases hres with
      | inl h1 =>
        rw [h1.2] at hl
        exact Option.noConfusion hl
      | inr h1 =>
        obtain ⟨hne, srv3, hl3, hsv⟩ := h1
        rw [hl3] at hl
        cases Option.some.inj hl
        rw [hsv]
        exact hnd_srv.erase _
    · rw [remove_lookup_other ha hreg] at hl
      exact hinv.svcNodup a srv2 hl
  · intro a srv2 hl s hs
    by_cases ha : a = hc.addr
    · subst ha
      cases hres with
      | inl h1 =>
        rw [h1.2] at hl
        exact Option.noConfusion hl
      | inr h1 =>
        obtain ⟨hne, srv3, hl3, hsv⟩ := h1
        rw [hl3] at hl
        cases Option.some.inj hl
        rw [hsv] at hs
        have hs2 := hnd_srv.mem_erase_iff.mp hs
        obtain ⟨w, hw, hwa, hws, hwh⟩ := hinv.regToQueue hc.addr srv hlk s hs2.2
        rw [hq] at hw
        rcases mem_middle_elim hw with rfl | hw2
        · exact (hs2.1 hws.symm).elim
        · exact ⟨w, hw2, hwa, hws, hwh⟩
    · rw [remove_lookup_other ha hreg] at hl
      obtain ⟨w, hw, hwa, hws, hwh⟩ := hinv.regToQueue a srv2 hl s hs
      rw [hq] at hw
      rcases mem_middle_elim hw with rfl | hw2
      · exact (ha hwa.symm).elim
      · exact ⟨w, hw2, hwa, hws, hwh⟩
  · intro j hj hjh
    have hjq : j ∈ st.queue := by rw [hq]; exact mem_middle_intro hj
    obtain ⟨srv', hl', hs'⟩ := hinv.queueToReg j hjq hjh
    by_cases hja : j.addr = hc.addr
    · rw [hja] at hl'
      rw [hlk] at hl'
      cases Option.some.inj hl'
      have hjs : j.service ≠ hc.service := by
        intro hcon
        exact pairwise_middle hpw j hj ⟨hh, hjh, hja.symm, hcon.symm⟩
      cases hres with
      | inl h1 =>
        have hmem : j.service ∈ srv.services.erase hc.service :=
          (List.mem_erase_of_ne hjs).mpr hs'
        rw [h1.1] at hmem
        simp at hmem
      | inr h1 =>
        obtain ⟨hne, srv3, hl3, hsv⟩ := h1
        refine ⟨srv3, by rw [hja]; exact hl3, ?_⟩
        rw [hsv]
        exact (List.mem_erase_of_ne hjs).mpr hs'
    · refine ⟨srv', ?_, hs'⟩
      rw [remove_lookup_other hja hreg]
      exact hl'
  · exact pairwise_remove_middle hpw
  · intro j hj h hlh
    exact hinv.lhShape j (by rw [hq]; exact mem_middle_intro hj) h hlh

theorem stateInv_probe_ok {st : DiscoveryState} {hc : HealthCheck}
    {l1 l2 : List HealthCheck} {features : ServerFeatures}
    {reg2 : List (ServerAddr × Server)} {now : Nat}
    (hq : st.queue = l1 ++ hc :: l2)
    (hreg : (if hc.is_healthy then some st.healthy
             else save_healthy_service hc features st.healthy) = some reg2)
    (hinv : StateInv st) :
    StateInv ⟨(l1 ++ l2) ++ [succUpdate hc now], reg2, now⟩ := by
  have hpw : (l1 ++ hc :: l2).Pairwise hkeyDistinct := hq ▸ hinv.uniqHealthy
  by_cases hh : hc.is_healthy = true
  · rw [if_pos hh] at hreg
    have hr2 := Option.some.inj hreg
    subst hr2
    constructor
    · exact hinv.keysNodup
    · exact hinv.entryNonempty
    · exact hinv.svcNodup
    · intro a srv hl s hs
      obtain ⟨w, hw, hwa, hws, hwh⟩ := hinv.regToQueue a srv hl s hs
      rw [hq] at hw
      rcases mem_middle_elim hw with rfl | hw2
      · exact ⟨succUpdate w now, List.mem_append_right _ (List.mem_singleton_self _),
          hwa, hws, succUpdate_healthy w now⟩
      · exact ⟨w, List.mem_append_left _ hw2, hwa, hws, hwh⟩
    · intro j hj hjh
      rcases List.mem_append.mp hj with h1 | h2
      · exact hinv.queueToReg j (by rw [hq]; exact mem_middle_intro h1) hjh
      · rcases List.mem_singleton.mp h2 with rfl
        obtain ⟨srv, hl, hs⟩ :=
          hinv.queueToReg hc (by rw [hq]; exact mem_middle_self l1 hc l2) hh
        exact ⟨srv, hl, hs⟩
    · refine pairwise_append_singleton (pairwise_remove_middle hpw) ?_
      intro j hj hcon
      exact pairwise_middle hpw j hj ⟨hh, hcon.1, hcon.2.2.1.symm, hcon.2.2.2.symm⟩
    · intro j hj h hlh
      rcases List.mem_append.mp hj with h1 | h2
      · exact hinv.lhShape j (by rw [hq]; exact mem_middle_intro h1) h hlh
      · rcases List.mem_singleton.mp h2 with rfl
        refine ⟨now, rfl, ?_⟩
        have hh2 := Option.some.inj hlh
        omega
  · have hhf : hc.is_healthy = false := by simpa using hh
    rw [if_neg hh] at hreg
    constructor
    · exact save_keys_nodup hreg hinv.keysNodup
    · intro a srv2 hl
      by_cases ha : a = hc.addr
      · subst ha
        obtain ⟨srv2', hl', hcases⟩ := save_lookup_self hreg
        rw [hl'] at hl
        cases Option.some.inj hl
        cases hcases with
        | inl h1 =>
          obtain ⟨srv, hls, hnm, hsv⟩ := h1
          rw [hsv]
          exact List.cons_ne_nil _ _
        | inr h1 =>
          rw [h1.2]
          exact List.cons_ne_nil _ _
      · rw [save_lookup_other ha hreg] at hl
        exact hinv.entryNonempty a srv2 hl
    · intro a srv2 hl
      by_cases ha : a = hc.addr
      · subst ha
        obtain ⟨srv2', hl', hcases⟩ := save_lookup_self hreg
        rw [hl'] at hl
        cases Option.some.inj hl
        cases hcases with
        | inl h1 =>
          obtain ⟨srv, hls, hnm, hsv⟩ := h1
          rw [hsv]
          exact List.nodup_cons.mpr ⟨hnm, hinv.svcNodup hc.addr srv hls⟩
        | inr h1 =>
          rw [h1.2]
          exact List.nodup_singleton _
      · rw [save_lookup_other ha hreg] at hl
        exact hinv.svcNodup a srv2 hl
    · intro a srv2 hl s hs
      by_cases ha : a = hc.addr
      · subst ha
        obtain ⟨srv2', hl', hcases⟩ := save_lookup_self hreg
        rw [hl'] at hl
        cases Option.some.inj hl
        cases hcases with
        | inl h1 =>
          obtain ⟨srv, hls, hnm, hsv⟩ := h1
          rw [hsv] at hs
          rcases List.mem_cons.mp hs with rfl | hs2
          · exact ⟨succUpdate hc now, List.mem_append_right _ (List.mem_singleton_self _),
              rfl, rfl, succUpdate_healthy hc now⟩
          · obtain ⟨w, hw, hwa, hws, hwh⟩ := hinv.regToQueue hc.addr srv hls s hs2
            rw [hq] at hw
            rcases mem_middle_elim hw with rfl | hw2
            · rw [hhf] at hwh
              exact Bool.noConfusion hwh
            · exact ⟨w, List.mem_append_left _ hw2, hwa, hws, hwh⟩
        | inr h1 =>
          rw [h1.2] at hs
          rcases List.mem_singleton.mp hs with rfl
          exact ⟨succUpdate hc now, List.mem_append_right _ (List.mem_singleton_self _),
            rfl, rfl, succUpdate_healthy hc now⟩
      · rw [save_lookup_other ha hreg] at hl
        obtain ⟨w, hw, hwa, hws, hwh⟩ := hinv.regToQueue a srv2 hl s hs
        rw [hq] at hw
        rcases mem_middle_elim hw with rfl | hw2
        · rw [hhf] at hwh
          exact Bool.noConfusion hwh
        · exact ⟨w, List.mem_append_left _ hw2, hwa, hws, hwh⟩
    · intro j hj hjh
      rcases List.mem_append.mp hj with h1 | h2
      · have hjq : j ∈ st.queue := by rw [hq]; exact mem_middle_intro h1
        obtain ⟨srv', hl', hs'⟩ := hinv.queueToReg j hjq hjh
        by_cases hja : j.addr = hc.addr
        · obtain ⟨srv2', hl2, hcases⟩ := save_lookup_self hreg
          cases hcases with
          | inl hcase =>
            obtain ⟨srv, hls, hnm, hsv⟩ := hcase
            rw [hja] at hl'
            rw [hls] at hl'
            cases Option.some.inj hl'
            refine ⟨srv2', by rw [hja]; exact hl2, ?_⟩
            rw [hsv]
            exact List.mem_cons_of_mem _ hs'
          | inr hcase =>
            rw [hja] at hl'
            rw [hcase.1] at hl'
            exact Option.noConfusion hl'
        · refine ⟨srv', ?_, hs'⟩
          rw [save_lookup_other hja hreg]
          exact hl'
      · rcases List.mem_singleton.mp h2 with rfl
        obtain ⟨srv2', hl2, hcases⟩ := save_lookup_self hreg
        refine ⟨srv2', hl2, ?_⟩
        cases hcases with
        | inl hcase =>
          obtain ⟨srv, hls, hnm, hsv⟩ := hcase
          rw [hsv]
          exact List.mem_cons_self _ _
        | inr hcase =>
          rw [hcase.2]
          exact List.mem_singleton_self _
    · refine pairwise_append_singleton (pairwise_remove_middle hpw) ?_
      intro j hj hcon
      have hja : j.addr = hc.addr := hcon.2.2.1
      have hjs : j.service = hc.service := hcon.2.2.2
      obtain ⟨srv', hl', hs'⟩ :=
        hinv.queueToReg j (by rw [hq]; exact mem_middle_intro hj) hcon.1
      rw [hja] at hl'
      have hsvc : hc.service ∈ srv'.services := by
        rw [← hjs]
        exact hs'
      exact save_not_mem hreg srv' hl' hsvc
    · intro j hj h hlh
      rcases List.mem_append.mp hj with h1 | h2
      · exact hinv.lhShape j (by rw [hq]; exact mem_middle_intro h1) h hlh
      · rcases List.mem_singleton.mp h2 with rfl
        refine ⟨now, rfl, ?_⟩
        have hh2 := Option.some.inj hlh
        omega

theorem stateInv_probe_fail {st : DiscoveryState} {hc : HealthCheck}
    {l1 l2 : List HealthCheck} {reg2 : List (ServerAddr × Server)} {now : Nat}
    (hq : st.queue = l1 ++ hc :: l2) (hdue : dueFor hc now = true)
    (hreg : (if hc.is_healthy then remove_unhealthy_service hc st.healthy
             else some st.healthy) = some reg2)
    (hinv : StateInv st) :
    StateInv ⟨if (failUpdate hc now).should_retry then (l1 ++ l2) ++ [failUpdate hc now]
              else l1 ++ l2, reg2, now⟩ := by
  have hshape := hinv.lhShape hc (by rw [hq]; exact mem_middle_self l1 hc l2)
  have hcnot : (failUpdate hc now).is_healthy = false := failUpdate_not_healthy hshape hdue
  have hcsh : ∀ h, (failUpdate hc now).last_healthy = some h →
      ∃ t, (failUpdate hc now).last_check = some t ∧ h ≤ t := by
    intro h hlh
    obtain ⟨t, hlc, hle⟩ := hshape h hlh
    have hlt : t < now := due_lt hlc hdue
    exact ⟨now, rfl, by omega⟩
  have hcore : StateInv ⟨l1 ++ l2, reg2, now⟩ := by
    by_cases hh : hc.is_healthy = true
    · rw [if_pos hh] at hreg
      exact stateInv_remove_core hq hh hreg hinv
    · have hhf : hc.is_healthy = false := by simpa using hh
      rw [if_neg hh] at hreg
      have hr2 := Option.some.inj hreg
      subst hr2
      exact stateInv_drop_middle hq hhf hinv
  by_cases hr : (failUpdate hc now).should_retry = true
  · rw [if_pos hr]
    refine stateInv_extend_unhealthy hcore ?_
    intro j hj
    rcases List.mem_singleton.mp hj with rfl
    exact ⟨hcnot, hcsh⟩
  · rw [if_neg hr]
    exact hcore

theorem stateInv_step {cfg : DiscoveryConfig} {env : ResolveEnv} {s t : DiscoveryState}
    (hinv : StateInv s) (hstep : Step cfg env s t) : StateInv t := by
  cases hstep with
  | add_default hostname services q2 hadd =>
    unfold add_default_server at hadd
    cases hres : ServerAddr.resolve env hostname with
    | none =>
      rw [hres] at hadd
      exact Except.noConfusion hadd
    | some addr =>
      rw [hres] at hadd
      dsimp only at hadd
      have hq2 := Except.ok.inj hadd
      subst hq2
      refine stateInv_extend_unhealthy hinv ?_
      intro j hj
      rw [List.mem_map] at hj
      obtain ⟨sv, hsv, rfl⟩ := hj
      refine ⟨new_not_healthy _ _ _ _, ?_⟩
      intro h hlh
      exact Option.noConfusion hlh
  | add_request ip features q2 hadd =>
    have hq2 := add_request_decomp hadd
    subst hq2
    refine stateInv_extend_unhealthy hinv ?_
    intro j hj
    obtain ⟨hlc, hlh⟩ := candidate_lc_none hj
    refine ⟨not_healthy_of_lc_none hlc, ?_⟩
    intro h hcon
    rw [hlh] at hcon
    exact Option.noConfusion hcon
  | probe_ok hc l1 l2 features reg2 now hq hmin hdue hclock hcompat hreg =>
    exact stateInv_probe_ok hq hreg hinv
  | probe_fail hc l1 l2 reg2 now hq hmin hdue hclock hreg =>
    exact stateInv_probe_fail hq hdue hreg hinv

theorem reachable_inv {cfg : DiscoveryConfig} {env : ResolveEnv} {st : DiscoveryState}
    (h : Reachable cfg env st) : StateInv st := by
  induction h with
  | init =>
    constructor
    · simp
    · intro a srv hl
      exact Option.noConfusion hl
    · intro a srv hl
      exact Option.noConfusion hl
    · intro a srv hl
      exact Option.noConfusion hl
    · intro hc hmem
      simp at hmem
    · exact List.Pairwise.nil
    · intro hc hmem
      simp at hmem
  | step hr hs ih =>
    exact stateInv_step ih hs

/-- C2: in every state reachable by any sequence of admissions and
health-check cycles, a Server entry exists in the healthy registry iff at
least one scheduled job for its address is healthy (last_check equal to
last_healthy, both present), and every existing entry has a non-empty
service set — so the cycle marking a server's last healthy service
unhealthy removes the entry within that same cycle. -/
theorem c2_registry_invariant :
    ∀ (cfg : DiscoveryConfig) (env : ResolveEnv) (st : DiscoveryState),
      Reachable cfg env st → ∀ a : ServerAddr,
        ((∃ srv, lookupServer st.healthy a = some srv) ↔
          (∃ hc, hc ∈ st.queue ∧ hc.addr = a ∧ hc.is_healthy = true)) ∧
        (∀ srv, lookupServer st.healthy a = some srv → srv.services ≠ []) := by
  intro cfg env st h a
  have hinv := reachable_inv h
  constructor
  · constructor
    · rintro ⟨srv, hl⟩
      have hne := hinv.entryNonempty a srv hl
      cases hsv : srv.services with
      | nil => exact absurd hsv hne
      | cons sv tl =>
        obtain ⟨w, hw, hwa, hws, hwh⟩ := hinv.regToQueue a srv hl sv
          (by rw [hsv]; exact List.mem_cons_self sv tl)
        exact ⟨w, hw, hwa, hwh⟩
    · rintro ⟨hc, hmem, rfl, hh⟩
      obtain ⟨srv, hl, _⟩ := hinv.queueToReg hc hmem hh
      exact ⟨srv, hl⟩
  · intro srv hl
    exact hinv.entryNonempty a srv hl

/-- Witness for C2: the invariant instantiated at the initial empty
manager, where both sides of the equivalence are false. -/
theorem c2_registry_invariant_witness :
    ((∃ srv, lookupServer ([] : List (ServerAddr × Server)) addrEx = some srv) ↔
      (∃ hc, hc ∈ ([] : List HealthCheck) ∧ hc.addr = addrEx ∧ hc.is_healthy = true)) ∧
    (∀ srv, lookupServer ([] : List (ServerAddr × Server)) addrEx = some srv →
      srv.services ≠ []) :=
  c2_registry_invariant cfgEx envNone { queue := [], healthy := [], clock := 0 }
    Reachable.init addrEx

/-- C5: the CorruptedState assertion is reachable at runtime.  Seeding the
same default (hostname, service) twice from the empty manager and probing
one copy successfully reaches the state stDup, in which the never-checked
duplicate job is the minimal, due head of the queue; a successful
compatible probe of it calls save_healthy_service, whose insert assertion
fails (modelled by the none result) because the service is already
registered — the program panics. -/
theorem c5_corrupted_state_reachable :
    Reachable cfgEx envNone stDup ∧
    stDup.queue = [] ++ jobDup :: [succUpdate jobDup 3600] ∧
    (∀ j ∈ stDup.queue, lcLE jobDup.last_check j.last_check = true) ∧
    dueFor jobDup 7200 = true ∧
    stDup.clock ≤ 7200 ∧
    isCompatible cfgEx featsEx = true ∧
    jobDup.is_healthy = false ∧
    save_healthy_service jobDup featsEx stDup.healthy = none := by
  refine ⟨?_, by decide, by decide, by decide, by decide, by decide, by decide, by decide⟩
  have h0 : Reachable cfgEx envNone { queue := [], healthy := [], clock := 0 } :=
    Reachable.init
  have h1 : Reachable cfgEx envNone { queue := [jobDup], healthy := [], clock := 0 } := by
    have hs : Step cfgEx envNone { queue := [], healthy := [], clock := 0 }
        { queue := [jobDup], healthy := [], clock := 0 } :=
      Step.add_default _ "x.onion" [Service.Tcp 50001] [jobDup] (by rfl)
    exact Reachable.step h0 hs
  have h2 : Reachable cfgEx envNone { queue := [jobDup, jobDup], healthy := [], clock := 0 } := by
    have hs : Step cfgEx envNone { queue := [jobDup], healthy := [], clock := 0 }
        { queue := [jobDup, jobDup], healthy := [], clock := 0 } :=
      Step.add_default _ "x.onion" [Service.Tcp 50001] [jobDup, jobDup] (by rfl)
    exact Reachable.step h1 hs
  have hs3 : Step cfgEx envNone { queue := [jobDup, jobDup], healthy := [], clock := 0 }
      stDup :=
    Step.probe_ok { queue := [jobDup, jobDup], healthy := [], clock := 0 } jobDup []
      [jobDup] featsEx regDup 3600 (by rfl) (by decide) (by decide) (by decide) (by decide)
      (by decide)
  exact Reachable.step h2 hs3
